import Mathlib

/-!
# Verification of the tic-tac-toe game core

Shallow embedding of `app/models/tictactoe.py`, `app/utils/ai.py` and the
session-data validator of `app/routes/game.py`, together with proofs about
the embedded operations.

Modelling conventions:
* Cells are the closed enumeration `{empty, X, O}` of the data model
  (the Python source uses the strings `''`, `'X'`, `'O'`).
* `game_status` and `difficulty` stay strings, exactly as in the source
  (`'playing'`, `'won'`, `'lost'`, `'draw'`; `'easy'`, `'medium'`, `'hard'`).
* The board is a list of rows of cells, as in the source.  Cell reads are
  modelled with `getD` defaults; on the 3x3 boards of the data model this
  coincides with Python list indexing (all internal reads are range-guarded
  or use literal indices 0..2).
* Mutation is modelled by explicit state passing: `make_move` returns the
  success flag together with the updated game, `check_winner` returns the
  detected winner together with the (possibly) updated game, mirroring the
  Python method's mutation of `self.winning_line`.
* `random.random() < 0.2` and `random.choice` are modelled by oracle
  parameters (a branch boolean, and an index reduced modulo the list
  length), so every theorem quantifies over all outcomes of the randomness.
* The recursion of `_minimax` terminates in Python because each recursive
  call fills one empty cell; the embedding makes this explicit with a fuel
  parameter.  `_get_hard_move` passes fuel 10, which exceeds the number of
  empty cells of any 3x3 board, and a fuel-stability lemma shows any
  sufficient fuel computes the same value.
-/

/-- Cell values: the closed domain `{'', 'X', 'O'}` of the data model. -/
inductive Cell where
  | empty : Cell
  | X : Cell
  | O : Cell
deriving DecidableEq, Repr

/-- A board is a list of rows of cells (`board: List[List[str]]`). -/
abbrev Board := List (List Cell)

/-- Read `board[r][c]`, with a default for out-of-shape access.  All reads
performed by the source are range-guarded or use literal indices 0..2, so on
3x3 boards this coincides with Python indexing. -/
def getCell (b : Board) (r c : Nat) : Cell :=
  (b.getD r []).getD c Cell.empty

/-- Write `board[r][c] = p` (no-op out of range, which the source never does
on well-shaped boards). -/
def setCell (b : Board) (r c : Nat) (p : Cell) : Board :=
  b.set r ((b.getD r []).set c p)

/-- The 9 coordinates in row-major order (`for i in range(3): for j in range(3)`). -/
def CELLS : List (Nat × Nat) :=
  [(0,0), (0,1), (0,2), (1,0), (1,1), (1,2), (2,0), (2,1), (2,2)]

/-- A scanned triple of coordinates. -/
abbrev Triple := (Nat × Nat) × (Nat × Nat) × (Nat × Nat)

/-- The triple as the list stored into `winning_line`. -/
def tripleToList (t : Triple) : List (Nat × Nat) :=
  [t.1, t.2.1, t.2.2]

/-- The 8 scanned lines in the fixed scan order of `check_winner`:
rows top-to-bottom, columns left-to-right, main diagonal, anti-diagonal. -/
def WIN_LINES : List Triple :=
  [ ((0,0), (0,1), (0,2))
  , ((1,0), (1,1), (1,2))
  , ((2,0), (2,1), (2,2))
  , ((0,0), (1,0), (2,0))
  , ((0,1), (1,1), (2,1))
  , ((0,2), (1,2), (2,2))
  , ((0,0), (1,1), (2,2))
  , ((0,2), (1,1), (2,0)) ]

/-- `board[a] == board[b] == board[c] != ''` for one scanned triple; returns
the mark when the triple is a winning line (`check_winner`'s per-line test). -/
def lineWinner (b : Board) (t : Triple) : Option Cell :=
  if getCell b t.1.1 t.1.2 = getCell b t.2.1.1 t.2.1.2 ∧
     getCell b t.2.1.1 t.2.1.2 = getCell b t.2.2.1 t.2.2.2 ∧
     getCell b t.2.2.1 t.2.2.2 ≠ Cell.empty
  then some (getCell b t.1.1 t.1.2) else none

/-- Scan a list of triples in order; first winning line with its mark. -/
def findFirstLine (b : Board) : List Triple → Option (Triple × Cell)
  | [] => none
  | t :: rest =>
    match lineWinner b t with
    | some m => some (t, m)
    | none => findFirstLine b rest

/-- The first winning line of the board in `check_winner`'s scan order. -/
def winnerLine (b : Board) : Option (Triple × Cell) :=
  findFirstLine b WIN_LINES

/-- Just the winning mark (the return value of `check_winner`). -/
def winnerMark (b : Board) : Option Cell :=
  (winnerLine b).map Prod.snd

/-- The game aggregate (`TicTacToeGame.__init__` fields). -/
structure Game where
  board : Board
  current_player : Cell
  game_status : String
  difficulty : String
  winner : Option Cell
  winning_line : Option (List (Nat × Nat))
deriving DecidableEq, Repr

namespace TicTacToeGame

/-- `TicTacToeGame(difficulty)`: fresh game, empty board, X to move. -/
def new (difficulty : String) : Game :=
  { board := [[Cell.empty, Cell.empty, Cell.empty],
              [Cell.empty, Cell.empty, Cell.empty],
              [Cell.empty, Cell.empty, Cell.empty]]
  , current_player := Cell.X
  , game_status := "playing"
  , difficulty := difficulty
  , winner := none
  , winning_line := none }

/-- The session snapshot dictionary.  `board`, `current_player`,
`game_status` and `difficulty` may be absent (`dict.get` with a default);
`winner` and `winning_line` default to `None`, indistinguishable from an
absent key. -/
structure Snapshot where
  board : Option Board
  current_player : Option Cell
  game_status : Option String
  difficulty : Option String
  winner : Option Cell
  winning_line : Option (List (Nat × Nat))
deriving DecidableEq, Repr

/-- `to_dict`: every field stored under its key. -/
def to_dict (g : Game) : Snapshot :=
  { board := some g.board
  , current_player := some g.current_player
  , game_status := some g.game_status
  , difficulty := some g.difficulty
  , winner := g.winner
  , winning_line := g.winning_line }

/-- `from_dict`: builds `cls(data.get('difficulty', 'medium'))` and then
overwrites each field with `data.get(...)` and its default.  No validation
is performed. -/
def from_dict (d : Snapshot) : Game :=
  { board := d.board.getD [[Cell.empty, Cell.empty, Cell.empty],
                           [Cell.empty, Cell.empty, Cell.empty],
                           [Cell.empty, Cell.empty, Cell.empty]]
  , current_player := d.current_player.getD Cell.X
  , game_status := d.game_status.getD "playing"
  , difficulty := d.difficulty.getD "medium"
  , winner := d.winner
  , winning_line := d.winning_line }

/-- `is_valid_move(row, col)`: range check, then emptiness, then status. -/
def is_valid_move (g : Game) (row col : Int) : Bool :=
  if ¬ (0 ≤ row ∧ row ≤ 2 ∧ 0 ≤ col ∧ col ≤ 2) then false
  else if getCell g.board row.toNat col.toNat ≠ Cell.empty then false
  else if g.game_status ≠ "playing" then false
  else true

/-- `check_winner`: scans the 8 lines in order; on the first match it sets
`self.winning_line` and returns the mark, otherwise it returns `None` and
leaves the game (in particular `winning_line`) untouched. -/
def check_winner (g : Game) : Option Cell × Game :=
  match winnerLine g.board with
  | some (t, m) => (some m, { g with winning_line := some (tripleToList t) })
  | none => (none, g)

/-- `is_board_full`: iterates the actual rows of the board. -/
def is_board_full (b : Board) : Bool :=
  b.all (fun row => row.all (fun cell => decide (cell ≠ Cell.empty)))

/-- `get_empty_cells`: row-major coordinates of empty cells. -/
def get_empty_cells (b : Board) : List (Nat × Nat) :=
  CELLS.filter (fun p => decide (getCell b p.1 p.2 = Cell.empty))

/-- `make_move(row, col, player)`: validity check, then turn check, then
write the mark, re-scan for a winner (updating `winning_line` on a win),
set the status, and flip the turn when the game goes on.  Returns the
success flag and the updated game; on failure the game is unchanged. -/
def make_move (g : Game) (row col : Int) (player : Cell) : Bool × Game :=
  if ¬ is_valid_move g row col then (false, g)
  else if player ≠ g.current_player then (false, g)
  else
    let g1 : Game := { g with board := setCell g.board row.toNat col.toNat player }
    let wg := check_winner g1
    match wg.1 with
    | some m =>
      (true, { wg.2 with game_status := if m = Cell.X then "won" else "lost"
                       , winner := some m })
    | none =>
      if is_board_full wg.2.board then
        (true, { wg.2 with game_status := "draw" })
      else
        (true, { wg.2 with current_player :=
                   if player = Cell.X then Cell.O else Cell.X })

/-- `reset_game(difficulty=None)`: fresh state; the difficulty argument is
kept only when truthy (Python: `if difficulty:`). -/
def reset_game (g : Game) (difficulty : Option String) : Game :=
  { board := [[Cell.empty, Cell.empty, Cell.empty],
              [Cell.empty, Cell.empty, Cell.empty],
              [Cell.empty, Cell.empty, Cell.empty]]
  , current_player := Cell.X
  , game_status := "playing"
  , difficulty := match difficulty with
      | some d => if d = "" then g.difficulty else d
      | none => g.difficulty
  , winner := none
  , winning_line := none }

/-- `copy`: value semantics make the deep copy the identity. -/
def copy (g : Game) : Game := g

end TicTacToeGame

/-- States reachable through the public operations: a fresh game, extended
by successful `make_move` steps. -/
inductive Reachable : Game → Prop where
  | new (d : String) : Reachable (TicTacToeGame.new d)
  | step {g g' : Game} {row col : Int} {p : Cell}
      (h : Reachable g)
      (hm : TicTacToeGame.make_move g row col p = (true, g')) :
      Reachable g'

namespace TicTacToeAI

/-- `self.ai_player = TicTacToeGame.PLAYER_O`. -/
def ai_player : Cell := Cell.O

/-- `self.human_player = TicTacToeGame.PLAYER_X`. -/
def human_player : Cell := Cell.X

/-- `random.choice(l)`, modelled by an oracle index reduced modulo the list
length (Python raises on an empty list; the default is never consumed in
the guarded call sites considered by the claims). -/
def choice (l : List (Nat × Nat)) (k : Nat) : Nat × Nat :=
  l.getD (k % l.length) (0, 0)

/-- The scan of `_find_winning_move`: first empty cell (in the given order)
where hypothetically placing `player` makes `check_winner` return `player`. -/
def find_winning_aux (b : Board) (player : Cell) :
    List (Nat × Nat) → Option (Nat × Nat)
  | [] => none
  | (r, c) :: rest =>
    if winnerMark (setCell b r c player) = some player then some (r, c)
    else find_winning_aux b player rest

/-- `_find_winning_move(game, player)`. -/
def _find_winning_move (g : Game) (player : Cell) : Option (Nat × Nat) :=
  find_winning_aux g.board player (TicTacToeGame.get_empty_cells g.board)

/-- `_find_blocking_move(game)`. -/
def _find_blocking_move (g : Game) : Option (Nat × Nat) :=
  _find_winning_move g human_player

/-- `_get_easy_move`: with probability 0.2 (oracle `blockBranch`) try to
block, otherwise random among the empty cells (oracle `k`). -/
def _get_easy_move (g : Game) (empty_cells : List (Nat × Nat))
    (blockBranch : Bool) (k : Nat) : Nat × Nat :=
  if blockBranch then
    match _find_blocking_move g with
    | some m => m
    | none => choice empty_cells k
  else choice empty_cells k

/-- `_get_medium_move`: win, else block, else center, else random corner,
else random empty cell (oracle `k` for the one `random.choice` executed). -/
def _get_medium_move (g : Game) (empty_cells : List (Nat × Nat)) (k : Nat) :
    Nat × Nat :=
  match _find_winning_move g ai_player with
  | some m => m
  | none =>
    match _find_blocking_move g with
    | some m => m
    | none =>
      if (1, 1) ∈ empty_cells then (1, 1)
      else
        let corners : List (Nat × Nat) := [(0,0), (0,2), (2,0), (2,2)]
        let available_corners := corners.filter (fun pos => decide (pos ∈ empty_cells))
        if available_corners ≠ [] then choice available_corners k
        else choice empty_cells k

/-- The maximizing loop of `_minimax`: running alpha, strict improvement of
`max_eval`/`best_move`, and the `beta <= alpha` break checked after each
iteration.  `ev a c` is the recursively evaluated score of the child reached
by move `c`, computed with running alpha `a`. -/
def abLoopMax (ev : Int → Nat × Nat → Int) (beta : Int) :
    List (Nat × Nat) → Int → Int → Option (Nat × Nat) → Int × Option (Nat × Nat)
  | [], _, maxEval, best => (maxEval, best)
  | c :: rest, alpha, maxEval, best =>
    let s := ev alpha c
    let maxEval' := if maxEval < s then s else maxEval
    let best' := if maxEval < s then some c else best
    let alpha' := max alpha s
    if beta ≤ alpha' then (maxEval', best')
    else abLoopMax ev beta rest alpha' maxEval' best'

/-- The minimizing loop of `_minimax`, mirror image of `abLoopMax`. -/
def abLoopMin (ev : Int → Nat × Nat → Int) (alpha : Int) :
    List (Nat × Nat) → Int → Int → Option (Nat × Nat) → Int × Option (Nat × Nat)
  | [], _, minEval, best => (minEval, best)
  | c :: rest, beta, minEval, best =>
    let s := ev beta c
    let minEval' := if s < minEval then s else minEval
    let best' := if s < minEval then some c else best
    let beta' := min beta s
    if beta' ≤ alpha then (minEval', best')
    else abLoopMin ev alpha rest beta' minEval' best'

/-- `_minimax(game, is_maximizing, alpha, beta)`: terminal tests in source
order, then the alpha-beta loop over the row-major empty cells.  The fuel
parameter makes the (cell-filling) recursion of the source explicit; fuel
exceeding the number of empty cells never runs out. -/
def _minimax : Nat → Board → Bool → Int → Int → Int × Option (Nat × Nat)
  | 0, _, _, _, _ => (0, none)
  | fuel + 1, b, is_maximizing, alpha, beta =>
    let w := winnerMark b
    if w = some ai_player then (10, none)
    else if w = some human_player then (-10, none)
    else if TicTacToeGame.is_board_full b then (0, none)
    else if is_maximizing then
      abLoopMax (fun a c => (_minimax fuel (setCell b c.1 c.2 ai_player) false a beta).1)
        beta (TicTacToeGame.get_empty_cells b) alpha (-1000) none
    else
      abLoopMin (fun bt c => (_minimax fuel (setCell b c.1 c.2 human_player) true alpha bt).1)
        alpha (TicTacToeGame.get_empty_cells b) beta 1000 none

/-- `_get_hard_move`: the move component of the root minimax call with the
default window (-1000, 1000).  Fuel 10 exceeds the 9 cells of any board of
the data model. -/
def _get_hard_move (g : Game) : Option (Nat × Nat) :=
  (_minimax 10 g.board true (-1000) 1000).2

/-- `get_move`: no-moves check first, then dispatch on the difficulty
string, else the invalid-difficulty error.  Errors are the `ValueError`
messages of the source. -/
def get_move (difficulty : String) (g : Game) (blockBranch : Bool) (k : Nat) :
    Except String (Option (Nat × Nat)) :=
  let empty_cells := TicTacToeGame.get_empty_cells g.board
  if empty_cells = [] then Except.error "No valid moves available"
  else if difficulty = "easy" then Except.ok (some (_get_easy_move g empty_cells blockBranch k))
  else if difficulty = "medium" then Except.ok (some (_get_medium_move g empty_cells k))
  else if difficulty = "hard" then Except.ok (_get_hard_move g)
  else Except.error ("Invalid difficulty level: " ++ difficulty)

/-- `get_ai_move(game, difficulty)`: constructs the AI (which lowercases the
difficulty) and delegates to `get_move`. -/
def get_ai_move (g : Game) (difficulty : String) (blockBranch : Bool) (k : Nat) :
    Except String (Option (Nat × Nat)) :=
  get_move difficulty.toLower g blockBranch k

/-- Plain minimax value without pruning: the specification against which the
alpha-beta implementation is verified (same terminal scores and the same
maximizing/minimizing recursion, folded over the same move order). -/
def mmVal : Nat → Board → Bool → Int
  | 0, _, _ => 0
  | fuel + 1, b, is_maximizing =>
    let w := winnerMark b
    if w = some ai_player then 10
    else if w = some human_player then -10
    else if TicTacToeGame.is_board_full b then 0
    else if is_maximizing then
      (TicTacToeGame.get_empty_cells b).foldl
        (fun acc c => max acc (mmVal fuel (setCell b c.1 c.2 ai_player) false)) (-1000)
    else
      (TicTacToeGame.get_empty_cells b).foldl
        (fun acc c => min acc (mmVal fuel (setCell b c.1 c.2 human_player) true)) 1000

end TicTacToeAI

/-! ## Board shape and cell update lemmas -/

/-- The board shape invariant of the data model: exactly 3 rows of 3 cells. -/
def Shaped (b : Board) : Prop :=
  b.length = 3 ∧ ∀ row ∈ b, row.length = 3

instance : DecidablePred Shaped := fun b => by
  unfold Shaped; infer_instance

theorem shaped_ex {b : Board} (hb : Shaped b) :
    ∃ r0 r1 r2, b = [r0, r1, r2] ∧ r0.length = 3 ∧ r1.length = 3 ∧ r2.length = 3 := by
  obtain ⟨hlen, hrow⟩ := hb
  match b, hlen with
  | [r0, r1, r2], _ =>
    exact ⟨r0, r1, r2, rfl,
      hrow r0 (by simp), hrow r1 (by simp), hrow r2 (by simp)⟩

theorem shaped_row {b : Board} (hb : Shaped b) {r : Nat} (hr : r < 3) :
    (b.getD r []).length = 3 := by
  obtain ⟨hlen, hrow⟩ := hb
  have hrl : r < b.length := by omega
  rw [List.getD_eq_getElem?_getD, List.getElem?_eq_getElem hrl]
  exact hrow _ (List.getElem_mem hrl)

theorem shaped_setCell {b : Board} (hb : Shaped b) {r c : Nat}
    (hr : r < 3) (hc : c < 3) (p : Cell) : Shaped (setCell b r c p) := by
  obtain ⟨hlen, hrow⟩ := hb
  constructor
  · simp [setCell, hlen]
  · intro row hmem
    rcases List.mem_or_eq_of_mem_set hmem with h | h
    · exact hrow _ h
    · subst h
      rw [List.length_set]
      exact shaped_row ⟨hlen, hrow⟩ hr

theorem getD_set_self {α : Type} {l : List α} {i : Nat} (h : i < l.length)
    (a d : α) : (l.set i a).getD i d = a := by
  rw [List.getD_eq_getElem?_getD, List.getElem?_set_self h, Option.getD_some]

theorem getD_set_ne {α : Type} {l : List α} {i j : Nat} (h : i ≠ j)
    (a d : α) : (l.set i a).getD j d = l.getD j d := by
  rw [List.getD_eq_getElem?_getD, List.getElem?_set_ne h,
    ← List.getD_eq_getElem?_getD]

theorem getCell_setCell {b : Board} (hb : Shaped b) {r c : Nat}
    (hr : r < 3) (hc : c < 3) (p : Cell) (i j : Nat) :
    getCell (setCell b r c p) i j = if i = r ∧ j = c then p else getCell b i j := by
  have hrl : r < b.length := by rw [hb.1]; omega
  have hcl : c < (b.getD r []).length := by rw [shaped_row hb hr]; omega
  unfold getCell setCell
  by_cases hi : i = r
  · subst hi
    rw [getD_set_self hrl]
    by_cases hj : j = c
    · subst hj
      rw [getD_set_self hcl]
      simp
    · rw [getD_set_ne (fun h => hj h.symm)]
      simp [hj]
  · rw [getD_set_ne (fun h => hi h.symm)]
    simp [hi]

/-! ## Empty-cell enumeration lemmas -/

theorem mem_CELLS_iff {p : Nat × Nat} : p ∈ CELLS ↔ p.1 < 3 ∧ p.2 < 3 := by
  constructor
  · intro h; fin_cases h <;> simp
  · rintro ⟨h1, h2⟩
    obtain ⟨a, b⟩ := p
    interval_cases a <;> interval_cases b <;> simp [CELLS]

theorem mem_get_empty_cells {b : Board} {p : Nat × Nat} :
    p ∈ TicTacToeGame.get_empty_cells b ↔
      p ∈ CELLS ∧ getCell b p.1 p.2 = Cell.empty := by
  simp [TicTacToeGame.get_empty_cells, List.mem_filter]

theorem get_empty_cells_nodup (b : Board) :
    (TicTacToeGame.get_empty_cells b).Nodup :=
  List.Nodup.filter _ (by decide)

theorem get_empty_cells_setCell {b : Board} (hb : Shaped b) {r c : Nat}
    (hr : r < 3) (hc : c < 3) {p : Cell} (hp : p ≠ Cell.empty) :
    TicTacToeGame.get_empty_cells (setCell b r c p) =
      (TicTacToeGame.get_empty_cells b).filter (fun q => decide (q ≠ (r, c))) := by
  unfold TicTacToeGame.get_empty_cells
  rw [List.filter_filter]
  apply List.filter_congr
  intro q _
  rw [getCell_setCell hb hr hc]
  by_cases hq : q = (r, c)
  · subst hq
    simp [hp]
  · have : ¬ (q.1 = r ∧ q.2 = c) := by
      intro hcon
      exact hq (Prod.ext hcon.1 hcon.2)
    simp [this, hq]

theorem length_filter_ne_lt {α : Type} [DecidableEq α] {l : List α} {a : α}
    (h : a ∈ l) :
    (l.filter (fun x => decide (x ≠ a))).length < l.length := by
  induction l with
  | nil => cases h
  | cons x xs ih =>
    by_cases hx : x = a
    · subst hx
      have hle : (xs.filter (fun y => decide (y ≠ x))).length ≤ xs.length :=
        List.length_filter_le _ _
      simp only [List.filter_cons, ne_eq, not_true_eq_false, decide_False]
      simpa using Nat.lt_succ_of_le hle
    · have hmem : a ∈ xs := by
        rcases List.mem_cons.mp h with h' | h'
        · exact absurd h'.symm hx
        · exact h'
      simp only [List.filter_cons, ne_eq, hx, not_false_eq_true, decide_True]
      simpa using Nat.succ_lt_succ (ih hmem)

theorem get_empty_cells_length_setCell {b : Board} (hb : Shaped b)
    {q : Nat × Nat} {p : Cell} (hp : p ≠ Cell.empty)
    (hmem : q ∈ TicTacToeGame.get_empty_cells b) :
    (TicTacToeGame.get_empty_cells (setCell b q.1 q.2 p)).length <
      (TicTacToeGame.get_empty_cells b).length := by
  have hr : q.1 < 3 := (mem_CELLS_iff.mp (mem_get_empty_cells.mp hmem).1).1
  have hc : q.2 < 3 := (mem_CELLS_iff.mp (mem_get_empty_cells.mp hmem).1).2
  rw [get_empty_cells_setCell hb hr hc hp]
  have hq : ((q.1, q.2) : Nat × Nat) = q := rfl
  rw [hq]
  exact length_filter_ne_lt hmem

/-! ## Winning-line lemmas -/

/-- The three cells of the scanned triple all hold mark `m`. -/
def isLineOf (b : Board) (t : Triple) (m : Cell) : Prop :=
  getCell b t.1.1 t.1.2 = m ∧ getCell b t.2.1.1 t.2.1.2 = m ∧
    getCell b t.2.2.1 t.2.2.2 = m

instance : ∀ b t m, Decidable (isLineOf b t m) := fun b t m => by
  unfold isLineOf; infer_instance

/-- Some scanned triple is entirely `m`. -/
def hasLineFor (b : Board) (m : Cell) : Prop :=
  ∃ t ∈ WIN_LINES, isLineOf b t m

instance : ∀ b m, Decidable (hasLineFor b m) := fun b m => by
  unfold hasLineFor; infer_instance

theorem lineWinner_eq_some_iff {b : Board} {t : Triple} {m : Cell} :
    lineWinner b t = some m ↔ isLineOf b t m ∧ m ≠ Cell.empty := by
  unfold lineWinner isLineOf
  split_ifs with h
  · simp only [Option.some.injEq]
    constructor
    · rintro rfl
      refine ⟨⟨rfl, h.1.symm, (h.1.trans h.2.1).symm⟩, ?_⟩
      intro hm
      exact h.2.2 (by rw [← h.1.trans h.2.1, hm])
    · rintro ⟨⟨h1, _, _⟩, _⟩
      exact h1
  · constructor
    · intro he; cases he
    · rintro ⟨⟨h1, h2, h3⟩, hm⟩
      exact absurd ⟨h1.trans h2.symm, h2.trans h3.symm, h3.symm ▸ hm⟩ h

theorem lineWinner_eq_none_iff {b : Board} {t : Triple} :
    lineWinner b t = none ↔ ∀ m : Cell, m ≠ Cell.empty → ¬ isLineOf b t m := by
  constructor
  · intro h m hm hline
    rw [lineWinner_eq_some_iff.mpr ⟨hline, hm⟩] at h
    cases h
  · intro h
    cases hlw : lineWinner b t with
    | none => rfl
    | some m =>
      obtain ⟨hline, hm⟩ := lineWinner_eq_some_iff.mp hlw
      exact absurd hline (h m hm)

theorem findFirstLine_eq_none_iff {b : Board} {L : List Triple} :
    findFirstLine b L = none ↔ ∀ t ∈ L, lineWinner b t = none := by
  induction L with
  | nil => simp [findFirstLine]
  | cons hd rest ih =>
    cases hlw : lineWinner b hd with
    | none => simp [findFirstLine, hlw, ih]
    | some m => simp [findFirstLine, hlw]

theorem findFirstLine_eq_some {b : Board} {L : List Triple} {t : Triple}
    {m : Cell} (h : findFirstLine b L = some (t, m)) :
    ∃ l1 l2, L = l1 ++ t :: l2 ∧ lineWinner b t = some m ∧
      ∀ t' ∈ l1, lineWinner b t' = none := by
  induction L with
  | nil => cases h
  | cons hd rest ih =>
    unfold findFirstLine at h
    cases hlw : lineWinner b hd with
    | none =>
      rw [hlw] at h
      obtain ⟨l1, l2, heq, hw, hnone⟩ := ih h
      refine ⟨hd :: l1, l2, by rw [heq]; rfl, hw, ?_⟩
      intro t' ht'
      rcases List.mem_cons.mp ht' with h' | h'
      · rw [h']; exact hlw
      · exact hnone t' h'
    | some m' =>
      rw [hlw] at h
      obtain ⟨rfl, rfl⟩ : t = hd ∧ m = m' := by
        cases h; exact ⟨rfl, rfl⟩
      exact ⟨[], rest, rfl, hlw, by intro t' ht'; cases ht'⟩

theorem winnerLine_eq_none_iff {b : Board} :
    winnerLine b = none ↔ ¬ hasLineFor b Cell.X ∧ ¬ hasLineFor b Cell.O := by
  unfold winnerLine
  rw [findFirstLine_eq_none_iff]
  constructor
  · intro h
    constructor
    · rintro ⟨t, ht, hline⟩
      have := lineWinner_eq_some_iff.mpr ⟨hline, by decide⟩
      rw [h t ht] at this; cases this
    · rintro ⟨t, ht, hline⟩
      have := lineWinner_eq_some_iff.mpr ⟨hline, by decide⟩
      rw [h t ht] at this; cases this
  · rintro ⟨hX, hO⟩ t ht
    rw [lineWinner_eq_none_iff]
    intro m hm hline
    cases m with
    | empty => exact hm rfl
    | X => exact hX ⟨t, ht, hline⟩
    | O => exact hO ⟨t, ht, hline⟩

theorem winnerLine_eq_some {b : Board} {t : Triple} {m : Cell}
    (h : winnerLine b = some (t, m)) :
    t ∈ WIN_LINES ∧ isLineOf b t m ∧ m ≠ Cell.empty := by
  obtain ⟨l1, l2, heq, hw, _⟩ := findFirstLine_eq_some h
  obtain ⟨hline, hm⟩ := lineWinner_eq_some_iff.mp hw
  exact ⟨by rw [heq]; exact List.mem_append_right l1 (List.mem_cons_self _ _), hline, hm⟩

theorem winnerMark_eq_some {b : Board} {m : Cell} (h : winnerMark b = some m) :
    hasLineFor b m ∧ m ≠ Cell.empty := by
  unfold winnerMark at h
  cases hwl : winnerLine b with
  | none => rw [hwl] at h; cases h
  | some tm =>
    rw [hwl] at h
    obtain ⟨t, m'⟩ := tm
    cases h
    obtain ⟨ht, hline, hm⟩ := winnerLine_eq_some hwl
    exact ⟨⟨t, ht, hline⟩, hm⟩

theorem winnerMark_eq_none_iff {b : Board} :
    winnerMark b = none ↔ ¬ hasLineFor b Cell.X ∧ ¬ hasLineFor b Cell.O := by
  unfold winnerMark
  cases hwl : winnerLine b with
  | none => simpa using winnerLine_eq_none_iff.mp hwl
  | some tm =>
    simp only [Option.map_some', reduceCtorEq, false_iff]
    intro hcon
    rw [winnerLine_eq_none_iff.mpr hcon] at hwl
    cases hwl

theorem isLineOf_setCell {b : Board} (hb : Shaped b) {r c : Nat}
    (hr : r < 3) (hc : c < 3) {p m : Cell} {t : Triple}
    (h : isLineOf (setCell b r c p) t m) : isLineOf b t m ∨ m = p := by
  by_cases hmp : m = p
  · right; exact hmp
  · left
    unfold isLineOf at h ⊢
    simp only [getCell_setCell hb hr hc] at h
    split_ifs at h <;> tauto

theorem hasLineFor_setCell {b : Board} (hb : Shaped b) {r c : Nat}
    (hr : r < 3) (hc : c < 3) {p m : Cell}
    (h : hasLineFor (setCell b r c p) m) : hasLineFor b m ∨ m = p := by
  obtain ⟨t, ht, hline⟩ := h
  rcases isLineOf_setCell hb hr hc hline with h' | h'
  · exact Or.inl ⟨t, ht, h'⟩
  · exact Or.inr h'

/-! ## Full-board lemmas -/

theorem getD_eq_getElem {α : Type} {l : List α} {n : Nat} (h : n < l.length)
    (d : α) : l.getD n d = l[n] := by
  rw [List.getD_eq_getElem?_getD, List.getElem?_eq_getElem h]; rfl

theorem get_empty_cells_ne_nil {b : Board} (hb : Shaped b)
    (h : TicTacToeGame.is_board_full b = false) :
    TicTacToeGame.get_empty_cells b ≠ [] := by
  unfold TicTacToeGame.is_board_full at h
  rw [List.all_eq_false] at h
  obtain ⟨row, hrow, hcell⟩ := h
  rw [Bool.not_eq_true, List.all_eq_false] at hcell
  obtain ⟨cell, hcmem, hcempty⟩ := hcell
  simp at hcempty
  obtain ⟨i, hi, hieq⟩ := List.mem_iff_getElem.mp hrow
  obtain ⟨j, hj, hjeq⟩ := List.mem_iff_getElem.mp hcmem
  have hi3 : i < 3 := by rw [← hb.1]; exact hi
  have hj3 : j < 3 := by
    rw [← hb.2 row hrow]; exact hj
  have hcell_eq : getCell b i j = Cell.empty := by
    unfold getCell
    rw [getD_eq_getElem hi, hieq, getD_eq_getElem hj, hjeq]
    exact hcempty
  exact List.ne_nil_of_mem
    ((@mem_get_empty_cells b (i, j)).mpr ⟨mem_CELLS_iff.mpr ⟨hi3, hj3⟩, hcell_eq⟩)

/-! ## Fold lemmas for the minimax value -/

theorem foldl_max_init {α : Type} (v : α → Int) (l : List α) (x y : Int) :
    l.foldl (fun a c => max a (v c)) (max x y) =
      max x (l.foldl (fun a c => max a (v c)) y) := by
  induction l generalizing y with
  | nil => rfl
  | cons c rest ih =>
    simp only [List.foldl_cons]
    rw [max_assoc, ih]

theorem le_foldl_max {α : Type} (v : α → Int) :
    ∀ (l : List α) (x : Int), x ≤ l.foldl (fun a c => max a (v c)) x
  | [], x => le_refl x
  | c :: rest, x => by
    simp only [List.foldl_cons]
    exact le_trans (le_max_left x (v c)) (le_foldl_max v rest _)

theorem foldl_max_le {α : Type} (v : α → Int) (K : Int) :
    ∀ (l : List α) (x : Int), x ≤ K → (∀ c ∈ l, v c ≤ K) →
      l.foldl (fun a c => max a (v c)) x ≤ K
  | [], _, hx, _ => hx
  | c :: rest, x, hx, hl => by
    simp only [List.foldl_cons]
    exact foldl_max_le v K rest _ (max_le hx (hl c (List.mem_cons_self c rest)))
      (fun d hd => hl d (List.mem_cons_of_mem c hd))

theorem mem_le_foldl_max {α : Type} (v : α → Int) :
    ∀ (l : List α) (x : Int) (c : α), c ∈ l →
      v c ≤ l.foldl (fun a c => max a (v c)) x
  | [], _, _, h => absurd h (List.not_mem_nil _)
  | d :: rest, x, c, h => by
    simp only [List.foldl_cons]
    rcases List.mem_cons.mp h with h' | h'
    · subst h'
      exact le_trans (le_max_right x (v c)) (le_foldl_max v rest _)
    · exact mem_le_foldl_max v rest _ c h'

theorem foldl_max_congr {α : Type} (v w : α → Int) :
    ∀ (l : List α) (x : Int), (∀ c ∈ l, v c = w c) →
      l.foldl (fun a c => max a (v c)) x = l.foldl (fun a c => max a (w c)) x
  | [], _, _ => rfl
  | c :: rest, x, h => by
    simp only [List.foldl_cons]
    rw [h c (List.mem_cons_self c rest)]
    exact foldl_max_congr v w rest _ (fun d hd => h d (List.mem_cons_of_mem c hd))

theorem foldl_min_init {α : Type} (v : α → Int) (l : List α) (x y : Int) :
    l.foldl (fun a c => min a (v c)) (min x y) =
      min x (l.foldl (fun a c => min a (v c)) y) := by
  induction l generalizing y with
  | nil => rfl
  | cons c rest ih =>
    simp only [List.foldl_cons]
    rw [min_assoc, ih]

theorem foldl_min_le {α : Type} (v : α → Int) :
    ∀ (l : List α) (x : Int), l.foldl (fun a c => min a (v c)) x ≤ x
  | [], x => le_refl x
  | c :: rest, x => by
    simp only [List.foldl_cons]
    exact le_trans (foldl_min_le v rest _) (min_le_left x (v c))

theorem le_foldl_min {α : Type} (v : α → Int) (K : Int) :
    ∀ (l : List α) (x : Int), K ≤ x → (∀ c ∈ l, K ≤ v c) →
      K ≤ l.foldl (fun a c => min a (v c)) x
  | [], _, hx, _ => hx
  | c :: rest, x, hx, hl => by
    simp only [List.foldl_cons]
    exact le_foldl_min v K rest _ (le_min hx (hl c (List.mem_cons_self c rest)))
      (fun d hd => hl d (List.mem_cons_of_mem c hd))

theorem foldl_min_le_mem {α : Type} (v : α → Int) :
    ∀ (l : List α) (x : Int) (c : α), c ∈ l →
      l.foldl (fun a c => min a (v c)) x ≤ v c
  | [], _, _, h => absurd h (List.not_mem_nil _)
  | d :: rest, x, c, h => by
    simp only [List.foldl_cons]
    rcases List.mem_cons.mp h with h' | h'
    · subst h'
      exact le_trans (foldl_min_le v rest _) (min_le_right x (v c))
    · exact foldl_min_le_mem v rest _ c h'

theorem foldl_min_congr {α : Type} (v w : α → Int) :
    ∀ (l : List α) (x : Int), (∀ c ∈ l, v c = w c) →
      l.foldl (fun a c => min a (v c)) x = l.foldl (fun a c => min a (w c)) x
  | [], _, _ => rfl
  | c :: rest, x, h => by
    simp only [List.foldl_cons]
    rw [h c (List.mem_cons_self c rest)]
    exact foldl_min_congr v w rest _ (fun d hd => h d (List.mem_cons_of_mem c hd))

/-! ## Minimax value: bounds and fuel stability -/

namespace TicTacToeAI

theorem mmVal_succ (fuel : Nat) (b : Board) (mx : Bool) :
    mmVal (fuel + 1) b mx =
      if winnerMark b = some ai_player then 10
      else if winnerMark b = some human_player then -10
      else if TicTacToeGame.is_board_full b then 0
      else if mx then
        (TicTacToeGame.get_empty_cells b).foldl
          (fun acc c => max acc (mmVal fuel (setCell b c.1 c.2 ai_player) false)) (-1000)
      else
        (TicTacToeGame.get_empty_cells b).foldl
          (fun acc c => min acc (mmVal fuel (setCell b c.1 c.2 human_player) true)) 1000 := rfl

theorem mem_empty_lt {b : Board} {c : Nat × Nat}
    (h : c ∈ TicTacToeGame.get_empty_cells b) : c.1 < 3 ∧ c.2 < 3 :=
  mem_CELLS_iff.mp (mem_get_empty_cells.mp h).1

theorem shaped_child {b : Board} (hb : Shaped b) {c : Nat × Nat}
    (h : c ∈ TicTacToeGame.get_empty_cells b) (p : Cell) :
    Shaped (setCell b c.1 c.2 p) :=
  shaped_setCell hb (mem_empty_lt h).1 (mem_empty_lt h).2 p

theorem child_fuel {b : Board} (hb : Shaped b) {c : Nat × Nat} {p : Cell}
    (hp : p ≠ Cell.empty) (h : c ∈ TicTacToeGame.get_empty_cells b)
    {fuel : Nat} (hf : (TicTacToeGame.get_empty_cells b).length < fuel + 1) :
    (TicTacToeGame.get_empty_cells (setCell b c.1 c.2 p)).length < fuel := by
  have := get_empty_cells_length_setCell hb hp h
  omega

theorem mmVal_bounds :
    ∀ (fuel : Nat) (b : Board) (mx : Bool), Shaped b →
      (TicTacToeGame.get_empty_cells b).length < fuel →
      -10 ≤ mmVal fuel b mx ∧ mmVal fuel b mx ≤ 10 := by
  intro fuel
  induction fuel with
  | zero => intro b mx _ hf; omega
  | succ fuel ih =>
    intro b mx hb hf
    rw [mmVal_succ]
    split_ifs with h1 h2 h3 h4
    · omega
    · omega
    · omega
    · constructor
      · obtain ⟨c, rest, hcons⟩ :=
          List.exists_cons_of_ne_nil (get_empty_cells_ne_nil hb (by
            simpa using h3))
        have hcmem : c ∈ TicTacToeGame.get_empty_cells b := by
          rw [hcons]; exact List.mem_cons_self c rest
        refine le_trans ?_ (mem_le_foldl_max _ _ _ c hcmem)
        exact (ih _ false (shaped_child hb hcmem _)
          (child_fuel hb (by decide) hcmem hf)).1
      · refine foldl_max_le _ 10 _ _ (by omega) ?_
        intro c hc
        exact (ih _ false (shaped_child hb hc _)
          (child_fuel hb (by decide) hc hf)).2
    · constructor
      · refine le_foldl_min _ (-10) _ _ (by omega) ?_
        intro c hc
        exact (ih _ true (shaped_child hb hc _)
          (child_fuel hb (by decide) hc hf)).1
      · obtain ⟨c, rest, hcons⟩ :=
          List.exists_cons_of_ne_nil (get_empty_cells_ne_nil hb (by
            simpa using h3))
        have hcmem : c ∈ TicTacToeGame.get_empty_cells b := by
          rw [hcons]; exact List.mem_cons_self c rest
        refine le_trans (foldl_min_le_mem _ _ _ c hcmem) ?_
        exact (ih _ true (shaped_child hb hcmem _)
          (child_fuel hb (by decide) hcmem hf)).2

theorem mmVal_stable :
    ∀ (f1 f2 : Nat) (b : Board) (mx : Bool), Shaped b →
      (TicTacToeGame.get_empty_cells b).length < f1 →
      (TicTacToeGame.get_empty_cells b).length < f2 →
      mmVal f1 b mx = mmVal f2 b mx := by
  intro f1
  induction f1 with
  | zero => intro f2 b mx _ h1 _; omega
  | succ f1 ih =>
    intro f2 b mx hb h1 h2
    match f2, h2 with
    | f2 + 1, h2 =>
      rw [mmVal_succ, mmVal_succ]
      split_ifs with h1' h2' h3' h4'
      · rfl
      · rfl
      · rfl
      · apply foldl_max_congr
        intro c hc
        exact ih f2 _ false (shaped_child hb hc _)
          (child_fuel hb (by decide) hc h1) (child_fuel hb (by decide) hc h2)
      · apply foldl_min_congr
        intro c hc
        exact ih f2 _ true (shaped_child hb hc _)
          (child_fuel hb (by decide) hc h1) (child_fuel hb (by decide) hc h2)

end TicTacToeAI

/-! ## Fail-soft correctness of the alpha-beta loops

The key specification is the window equation
`min beta (max alpha r) = min beta (max alpha v)`: inside the window the
returned score `r` equals the true minimax value `v`, and outside it `r` is
a correct fail-soft bound. -/

namespace TicTacToeAI

theorem abLoopMax_cons (ev : Int → Nat × Nat → Int) (beta : Int)
    (c : Nat × Nat) (rest : List (Nat × Nat)) (alpha m : Int)
    (best : Option (Nat × Nat)) :
    abLoopMax ev beta (c :: rest) alpha m best =
      if beta ≤ max alpha (ev alpha c) then
        ((if m < ev alpha c then ev alpha c else m),
         (if m < ev alpha c then some c else best))
      else
        abLoopMax ev beta rest (max alpha (ev alpha c))
          (if m < ev alpha c then ev alpha c else m)
          (if m < ev alpha c then some c else best) := rfl

theorem abLoopMin_cons (ev : Int → Nat × Nat → Int) (alpha : Int)
    (c : Nat × Nat) (rest : List (Nat × Nat)) (beta m : Int)
    (best : Option (Nat × Nat)) :
    abLoopMin ev alpha (c :: rest) beta m best =
      if min beta (ev beta c) ≤ alpha then
        ((if ev beta c < m then ev beta c else m),
         (if ev beta c < m then some c else best))
      else
        abLoopMin ev alpha rest (min beta (ev beta c))
          (if ev beta c < m then ev beta c else m)
          (if ev beta c < m then some c else best) := rfl

theorem abLoopMax_E (v : Nat × Nat → Int) (ev : Int → Nat × Nat → Int)
    (alpha0 beta : Int) (h0 : -1000 ≤ alpha0) :
    ∀ (l : List (Nat × Nat)) (m : Int) (best : Option (Nat × Nat)),
      max alpha0 m < beta →
      (∀ c ∈ l, -10 ≤ v c ∧ v c ≤ 10) →
      (∀ a c, c ∈ l → -1000 ≤ a → a < beta →
        (-10 ≤ ev a c ∧ ev a c ≤ 10) ∧
        min beta (max a (ev a c)) = min beta (max a (v c))) →
      m ≤ (abLoopMax ev beta l (max alpha0 m) m best).1 ∧
      (abLoopMax ev beta l (max alpha0 m) m best).1 ≤ max m 10 ∧
      (l ≠ [] → -10 ≤ (abLoopMax ev beta l (max alpha0 m) m best).1) ∧
      min beta (max alpha0 (abLoopMax ev beta l (max alpha0 m) m best).1) =
        min beta (max alpha0 (l.foldl (fun a c => max a (v c)) m)) := by
  intro l
  induction l with
  | nil =>
    intro m best hm _ _
    exact ⟨le_refl m, le_max_left m 10, fun h => absurd rfl h, rfl⟩
  | cons c rest ih =>
    intro m best hm hv hev
    rw [abLoopMax_cons]
    set s := ev (max alpha0 m) c with hsdef
    obtain ⟨hsb, hsE⟩ :=
      hev (max alpha0 m) c (List.mem_cons_self c rest) (by omega) hm
    have hveq := hv c (List.mem_cons_self c rest)
    have hif1 : (if m < s then s else m) = max m s := by split_ifs <;> omega
    have hassoc : max (max alpha0 m) s = max alpha0 (max m s) := max_assoc _ _ _
    rw [hif1, hassoc, List.foldl_cons, max_comm m (v c), foldl_max_init]
    set T := rest.foldl (fun a c => max a (v c)) m with hTdef
    have hT : m ≤ T := le_foldl_max _ _ _
    by_cases hbr : beta ≤ max alpha0 (max m s)
    · rw [if_pos hbr]
      refine ⟨?_, ?_, fun _ => ?_, ?_⟩
      · clear hsE hev hv ih; omega
      · clear hsE hev hv ih; omega
      · clear hsE hev hv ih; omega
      · clear hev hv ih; omega
    · rw [if_neg hbr]
      push_neg at hbr
      obtain ⟨ih1, ih2, ih3, ih4⟩ := ih (max m s)
        (if m < s then some c else best) hbr
        (fun d hd => hv d (List.mem_cons_of_mem c hd))
        (fun a d hd ha hab => hev a d (List.mem_cons_of_mem c hd) ha hab)
      have hsplit : rest.foldl (fun a c => max a (v c)) (max m s) = max s T := by
        rw [max_comm m s, foldl_max_init, ← hTdef]
      rw [hsplit] at ih4
      refine ⟨?_, ?_, fun _ => ?_, ?_⟩
      · clear hsE ih4 hev hv ih; omega
      · clear hsE ih4 hev hv ih; omega
      · clear hsE ih4 hev hv ih; omega
      · clear hev hv ih ih2 ih3; omega

theorem abLoopMin_E (v : Nat × Nat → Int) (ev : Int → Nat × Nat → Int)
    (alpha beta0 : Int) (h0 : beta0 ≤ 1000) :
    ∀ (l : List (Nat × Nat)) (m : Int) (best : Option (Nat × Nat)),
      alpha < min beta0 m →
      (∀ c ∈ l, -10 ≤ v c ∧ v c ≤ 10) →
      (∀ bt c, c ∈ l → bt ≤ 1000 → alpha < bt →
        (-10 ≤ ev bt c ∧ ev bt c ≤ 10) ∧
        min bt (max alpha (ev bt c)) = min bt (max alpha (v c))) →
      (abLoopMin ev alpha l (min beta0 m) m best).1 ≤ m ∧
      min m (-10) ≤ (abLoopMin ev alpha l (min beta0 m) m best).1 ∧
      (l ≠ [] → (abLoopMin ev alpha l (min beta0 m) m best).1 ≤ 10) ∧
      min beta0 (max alpha (abLoopMin ev alpha l (min beta0 m) m best).1) =
        min beta0 (max alpha (l.foldl (fun a c => min a (v c)) m)) := by
  intro l
  induction l with
  | nil =>
    intro m best hm _ _
    exact ⟨le_refl m, min_le_left m (-10), fun h => absurd rfl h, rfl⟩
  | cons c rest ih =>
    intro m best hm hv hev
    rw [abLoopMin_cons]
    set s := ev (min beta0 m) c with hsdef
    obtain ⟨hsb, hsE⟩ :=
      hev (min beta0 m) c (List.mem_cons_self c rest) (by omega) hm
    have hveq := hv c (List.mem_cons_self c rest)
    have hif1 : (if s < m then s else m) = min m s := by split_ifs <;> omega
    have hassoc : min (min beta0 m) s = min beta0 (min m s) := min_assoc _ _ _
    rw [hif1, hassoc, List.foldl_cons, min_comm m (v c), foldl_min_init]
    set T := rest.foldl (fun a c => min a (v c)) m with hTdef
    have hT : T ≤ m := foldl_min_le _ _ _
    by_cases hbr : min beta0 (min m s) ≤ alpha
    · rw [if_pos hbr]
      refine ⟨?_, ?_, fun _ => ?_, ?_⟩
      · clear hsE hev hv ih; omega
      · clear hsE hev hv ih; omega
      · clear hsE hev hv ih; omega
      · clear hev hv ih; omega
    · rw [if_neg hbr]
      push_neg at hbr
      obtain ⟨ih1, ih2, ih3, ih4⟩ := ih (min m s)
        (if s < m then some c else best) hbr
        (fun d hd => hv d (List.mem_cons_of_mem c hd))
        (fun bt d hd hb hab => hev bt d (List.mem_cons_of_mem c hd) hb hab)
      have hsplit : rest.foldl (fun a c => min a (v c)) (min m s) = min s T := by
        rw [min_comm m s, foldl_min_init, ← hTdef]
      rw [hsplit] at ih4
      refine ⟨?_, ?_, fun _ => ?_, ?_⟩
      · clear hsE ih4 hev hv ih; omega
      · clear hsE ih4 hev hv ih; omega
      · clear hsE ih4 hev hv ih; omega
      · clear hev hv ih ih2 ih3; omega

end TicTacToeAI

namespace TicTacToeAI

theorem minimax_succ (fuel : Nat) (b : Board) (mx : Bool) (alpha beta : Int) :
    _minimax (fuel + 1) b mx alpha beta =
      if winnerMark b = some ai_player then (10, none)
      else if winnerMark b = some human_player then (-10, none)
      else if TicTacToeGame.is_board_full b then (0, none)
      else if mx then
        abLoopMax (fun a c => (_minimax fuel (setCell b c.1 c.2 ai_player) false a beta).1)
          beta (TicTacToeGame.get_empty_cells b) alpha (-1000) none
      else
        abLoopMin (fun bt c => (_minimax fuel (setCell b c.1 c.2 human_player) true alpha bt).1)
          alpha (TicTacToeGame.get_empty_cells b) beta 1000 none := rfl

/-- Fail-soft correctness of the implemented alpha-beta search against the
plain minimax value `mmVal`: the returned score is bounded, and agrees with
the minimax value through the search window. -/
theorem minimax_E :
    ∀ (fuel : Nat) (b : Board) (mx : Bool) (alpha beta : Int),
      Shaped b → (TicTacToeGame.get_empty_cells b).length < fuel →
      -1000 ≤ alpha → beta ≤ 1000 → alpha < beta →
      (-10 ≤ (_minimax fuel b mx alpha beta).1 ∧
        (_minimax fuel b mx alpha beta).1 ≤ 10) ∧
      min beta (max alpha (_minimax fuel b mx alpha beta).1) =
        min beta (max alpha (mmVal fuel b mx)) := by
  intro fuel
  induction fuel with
  | zero => intro b mx alpha beta _ hf _ _ _; omega
  | succ fuel ih =>
    intro b mx alpha beta hb hf ha hbt hab
    rw [minimax_succ, mmVal_succ]
    split_ifs with h1 h2 h3 h4
    · exact ⟨⟨by norm_num, by norm_num⟩, rfl⟩
    · exact ⟨⟨by norm_num, by norm_num⟩, rfl⟩
    · exact ⟨⟨by norm_num, by norm_num⟩, rfl⟩
    · have hne : TicTacToeGame.get_empty_cells b ≠ [] :=
        get_empty_cells_ne_nil hb (by simpa using h3)
      have hmax0 : max alpha (-1000 : Int) = alpha := by omega
      have hloop := abLoopMax_E
        (fun c => mmVal fuel (setCell b c.1 c.2 ai_player) false)
        (fun a c => (_minimax fuel (setCell b c.1 c.2 ai_player) false a beta).1)
        alpha beta ha (TicTacToeGame.get_empty_cells b) (-1000) none
        (by omega)
        (fun c hc => mmVal_bounds fuel _ false (shaped_child hb hc _)
          (child_fuel hb (by decide) hc hf))
        (fun a c hc ha' hab' =>
          ih _ false a beta (shaped_child hb hc _)
            (child_fuel hb (by decide) hc hf) ha' hbt hab')
      rw [hmax0] at hloop
      obtain ⟨hl1, hl2, hl3, hl4⟩ := hloop
      exact ⟨⟨hl3 hne, by omega⟩, hl4⟩
    · have hne : TicTacToeGame.get_empty_cells b ≠ [] :=
        get_empty_cells_ne_nil hb (by simpa using h3)
      have hmin0 : min beta (1000 : Int) = beta := by omega
      have hloop := abLoopMin_E
        (fun c => mmVal fuel (setCell b c.1 c.2 human_player) true)
        (fun bt c => (_minimax fuel (setCell b c.1 c.2 human_player) true alpha bt).1)
        alpha beta hbt (TicTacToeGame.get_empty_cells b) 1000 none
        (by omega)
        (fun c hc => mmVal_bounds fuel _ true (shaped_child hb hc _)
          (child_fuel hb (by decide) hc hf))
        (fun bt c hc hbt' hab' =>
          ih _ true alpha bt (shaped_child hb hc _)
            (child_fuel hb (by decide) hc hf) ha hbt' hab')
      rw [hmin0] at hloop
      obtain ⟨hl1, hl2, hl3, hl4⟩ := hloop
      exact ⟨⟨by omega, hl3 hne⟩, hl4⟩

end TicTacToeAI

namespace TicTacToeAI

/-- At the root window (-1000, 1000) the running alpha coincides with
`max_eval`, no break ever fires, the final score is the exact fold of the
child values, and the returned move (when not `none`) is a move whose child
value equals the returned score. -/
theorem abLoopMax_root (v : Nat × Nat → Int) (ev : Int → Nat × Nat → Int)
    (S : List (Nat × Nat)) :
    ∀ (l : List (Nat × Nat)) (m : Int) (best : Option (Nat × Nat)),
      (∀ c ∈ l, c ∈ S) →
      (m = -1000 ∨ (-10 ≤ m ∧ m ≤ 10)) →
      ((best = none ∧ m = -1000) ∨ (∃ c0 ∈ S, best = some c0 ∧ v c0 = m)) →
      (∀ c ∈ l, -10 ≤ v c ∧ v c ≤ 10) →
      (∀ a c, c ∈ l → -1000 ≤ a → a < 1000 →
        (-10 ≤ ev a c ∧ ev a c ≤ 10) ∧
        min 1000 (max a (ev a c)) = min 1000 (max a (v c))) →
      (abLoopMax ev 1000 l m m best).1 = l.foldl (fun a c => max a (v c)) m ∧
      (((abLoopMax ev 1000 l m m best).2 = none ∧
          (abLoopMax ev 1000 l m m best).1 = -1000) ∨
        (∃ c0 ∈ S, (abLoopMax ev 1000 l m m best).2 = some c0 ∧
          v c0 = (abLoopMax ev 1000 l m m best).1)) := by
  intro l
  induction l with
  | nil =>
    intro m best _ _ hbest _ _
    exact ⟨rfl, hbest⟩
  | cons c rest ih =>
    intro m best hS hmb hbest hv hev
    rw [abLoopMax_cons]
    set s := ev m c with hsdef
    obtain ⟨hsb, hsE⟩ :=
      hev m c (List.mem_cons_self c rest) (by omega) (by omega)
    have hveq := hv c (List.mem_cons_self c rest)
    have hnobr : ¬ (1000 : Int) ≤ max m s := by omega
    rw [if_neg hnobr]
    rw [List.foldl_cons]
    by_cases hms : m < s
    · have hs_exact : v c = s := by clear ih hev hv hS hbest; omega
      have hmax : max m (v c) = s := by clear ih hev hv hS hbest; omega
      have hms_max : max m s = s := by clear ih hev hv hS hbest; omega
      rw [if_pos hms, if_pos hms]
      have hrec := ih s (some c)
        (fun d hd => hS d (List.mem_cons_of_mem c hd))
        (Or.inr ⟨by clear ih hev hv hS hbest; omega, by clear ih hev hv hS hbest; omega⟩)
        (Or.inr ⟨c, hS c (List.mem_cons_self c rest), rfl, hs_exact⟩)
        (fun d hd => hv d (List.mem_cons_of_mem c hd))
        (fun a d hd ha hb => hev a d (List.mem_cons_of_mem c hd) ha hb)
      have hinit : m ⊔ v c = s := hmax
      rw [hinit, hms_max]
      exact hrec
    · have hvle : v c ≤ m := by clear ih hev hv hS hbest; omega
      have hmax : max m (v c) = m := by clear ih hev hv hS hbest; omega
      have hms_max : max m s = m := by clear ih hev hv hS hbest; omega
      rw [if_neg hms, if_neg hms]
      have hrec := ih m best
        (fun d hd => hS d (List.mem_cons_of_mem c hd))
        hmb hbest
        (fun d hd => hv d (List.mem_cons_of_mem c hd))
        (fun a d hd ha hb => hev a d (List.mem_cons_of_mem c hd) ha hb)
      have hinit : m ⊔ v c = m := hmax
      rw [hinit, hms_max]
      exact hrec

theorem empty_cells_le_9 (b : Board) :
    (TicTacToeGame.get_empty_cells b).length ≤ 9 := by
  have := List.length_filter_le
    (fun p => decide (getCell b p.1 p.2 = Cell.empty)) CELLS
  simpa [CELLS] using this

/-- The root minimax call on a shaped non-terminal board: it returns `some`
move among the empty cells, its score is the exact minimax value of the
position, and the chosen move's child value equals that score. -/
theorem hard_move_spec (b : Board) (hb : Shaped b)
    (hw : winnerMark b = none)
    (hfull : TicTacToeGame.is_board_full b = false) :
    ∃ mv, (_minimax 10 b true (-1000) 1000).2 = some mv ∧
      mv ∈ TicTacToeGame.get_empty_cells b ∧
      mmVal 9 (setCell b mv.1 mv.2 ai_player) false =
        (_minimax 10 b true (-1000) 1000).1 ∧
      (_minimax 10 b true (-1000) 1000).1 = mmVal 10 b true := by
  have hf : (TicTacToeGame.get_empty_cells b).length < 10 := by
    have := empty_cells_le_9 b; omega
  have hne : TicTacToeGame.get_empty_cells b ≠ [] :=
    get_empty_cells_ne_nil hb hfull
  have hO : ¬ winnerMark b = some ai_player := by rw [hw]; simp
  have hX : ¬ winnerMark b = some human_player := by rw [hw]; simp
  have hroot := abLoopMax_root
    (fun c => mmVal 9 (setCell b c.1 c.2 ai_player) false)
    (fun a c => (_minimax 9 (setCell b c.1 c.2 ai_player) false a 1000).1)
    (TicTacToeGame.get_empty_cells b)
    (TicTacToeGame.get_empty_cells b) (-1000) none
    (fun c hc => hc)
    (Or.inl rfl)
    (Or.inl ⟨rfl, rfl⟩)
    (fun c hc => mmVal_bounds 9 (setCell b c.1 c.2 ai_player) false
      (shaped_child hb hc ai_player)
      (child_fuel hb (show ai_player ≠ Cell.empty by decide) hc hf))
    (fun a c hc ha hb' =>
      minimax_E 9 (setCell b c.1 c.2 ai_player) false a 1000
        (shaped_child hb hc ai_player)
        (child_fuel hb (show ai_player ≠ Cell.empty by decide) hc hf)
        ha (le_refl _) hb')
  obtain ⟨hsc, hmv⟩ := hroot
  have hunf : _minimax 10 b true (-1000) 1000 =
      abLoopMax (fun a c => (_minimax 9 (setCell b c.1 c.2 ai_player) false a 1000).1)
        1000 (TicTacToeGame.get_empty_cells b) (-1000) (-1000) none := by
    rw [show (10 : Nat) = 9 + 1 from rfl, minimax_succ]
    rw [if_neg hO, if_neg hX, if_neg (by rw [hfull]; simp)]
    simp
  have hmmv : mmVal 10 b true =
      (TicTacToeGame.get_empty_cells b).foldl
        (fun a c => max a (mmVal 9 (setCell b c.1 c.2 ai_player) false)) (-1000) := by
    rw [show (10 : Nat) = 9 + 1 from rfl, mmVal_succ]
    rw [if_neg hO, if_neg hX, if_neg (by rw [hfull]; simp)]
    simp
  rw [hunf]
  rcases hmv with ⟨hbn, hr⟩ | ⟨c0, hc0, hbf, hvc0⟩
  · exfalso
    obtain ⟨c, rest, hcons⟩ := List.exists_cons_of_ne_nil hne
    have hcmem : c ∈ TicTacToeGame.get_empty_cells b := by
      rw [hcons]; exact List.mem_cons_self c rest
    have hge : mmVal 9 (setCell b c.1 c.2 ai_player) false ≤
        (TicTacToeGame.get_empty_cells b).foldl
          (fun a d => max a (mmVal 9 (setCell b d.1 d.2 ai_player) false)) (-1000) :=
      mem_le_foldl_max (fun d => mmVal 9 (setCell b d.1 d.2 ai_player) false)
        (TicTacToeGame.get_empty_cells b) (-1000) c hcmem
    have hlb := (mmVal_bounds 9 (setCell b c.1 c.2 ai_player) false
      (shaped_child hb hcmem ai_player)
      (child_fuel hb (show ai_player ≠ Cell.empty by decide) hcmem hf)).1
    have hr3 : (TicTacToeGame.get_empty_cells b).foldl
        (fun a d => max a (mmVal 9 (setCell b d.1 d.2 ai_player) false)) (-1000) = -1000 :=
      hsc.symm.trans hr
    omega
  · refine ⟨c0, hbf, hc0, ?_, ?_⟩
    · exact hvc0
    · rw [hmmv]; exact hsc

end TicTacToeAI

/-! ## Characterization of `make_move` -/

namespace TicTacToeGame

/-- The `PLAYER_O if player == PLAYER_X else PLAYER_X` turn flip. -/
def flip_player (p : Cell) : Cell :=
  if p = Cell.X then Cell.O else Cell.X

theorem make_move_fail {g : Game} {row col : Int} {p : Cell}
    (h : is_valid_move g row col = false ∨ p ≠ g.current_player) :
    make_move g row col p = (false, g) := by
  unfold make_move
  by_cases hv : is_valid_move g row col
  · rcases h with h | h
    · rw [hv] at h; cases h
    · rw [if_neg (by simp [hv]), if_pos h]
  · rw [if_pos (by simp [hv])]

theorem make_move_eq_of_winner {g : Game} {row col : Int} {p : Cell}
    {t : Triple} {m : Cell}
    (hv : is_valid_move g row col = true) (hp : p = g.current_player)
    (hwl : winnerLine (setCell g.board row.toNat col.toNat p) = some (t, m)) :
    make_move g row col p =
      (true, { g with board := setCell g.board row.toNat col.toNat p
                    , winning_line := some (tripleToList t)
                    , game_status := if m = Cell.X then "won" else "lost"
                    , winner := some m }) := by
  unfold make_move
  rw [if_neg (by simp [hv]), if_neg (by simp [hp])]
  simp only [check_winner, hwl]

theorem make_move_eq_of_draw {g : Game} {row col : Int} {p : Cell}
    (hv : is_valid_move g row col = true) (hp : p = g.current_player)
    (hwl : winnerLine (setCell g.board row.toNat col.toNat p) = none)
    (hfull : is_board_full (setCell g.board row.toNat col.toNat p) = true) :
    make_move g row col p =
      (true, { g with board := setCell g.board row.toNat col.toNat p
                    , game_status := "draw" }) := by
  unfold make_move
  rw [if_neg (by simp [hv]), if_neg (by simp [hp])]
  simp only [check_winner, hwl, hfull, if_pos]

theorem make_move_eq_of_continue {g : Game} {row col : Int} {p : Cell}
    (hv : is_valid_move g row col = true) (hp : p = g.current_player)
    (hwl : winnerLine (setCell g.board row.toNat col.toNat p) = none)
    (hfull : is_board_full (setCell g.board row.toNat col.toNat p) = false) :
    make_move g row col p =
      (true, { g with board := setCell g.board row.toNat col.toNat p
                    , current_player := flip_player p }) := by
  unfold make_move flip_player
  rw [if_neg (by simp [hv]), if_neg (by simp [hp])]
  simp only [check_winner, hwl, hfull]
  simp

theorem is_valid_move_iff {g : Game} {row col : Int} :
    is_valid_move g row col = true ↔
      0 ≤ row ∧ row ≤ 2 ∧ 0 ≤ col ∧ col ≤ 2 ∧
      getCell g.board row.toNat col.toNat = Cell.empty ∧
      g.game_status = "playing" := by
  unfold is_valid_move
  by_cases h1 : (0 ≤ row ∧ row ≤ 2 ∧ 0 ≤ col ∧ col ≤ 2)
  · rw [if_neg (by simpa using h1)]
    by_cases h2 : getCell g.board row.toNat col.toNat = Cell.empty
    · rw [if_neg (by simpa using h2)]
      by_cases h3 : g.game_status = "playing"
      · rw [if_neg (by simpa using h3)]
        simp only [true_iff]
        exact ⟨h1.1, h1.2.1, h1.2.2.1, h1.2.2.2, h2, h3⟩
      · rw [if_pos (by simpa using h3)]
        constructor
        · intro h; exact absurd h (by simp)
        · intro hcon; exact absurd hcon.2.2.2.2.2 h3
    · rw [if_pos (by simpa using h2)]
      constructor
      · intro h; exact absurd h (by simp)
      · intro hcon; exact absurd hcon.2.2.2.2.1 h2
  · rw [if_pos h1]
    constructor
    · intro h; exact absurd h (by simp)
    · intro hcon; exact absurd ⟨hcon.1, hcon.2.1, hcon.2.2.1, hcon.2.2.2.1⟩ h1

end TicTacToeGame

/-! ## The state invariant of reachable games -/

/-- Invariant maintained by the engine on every state it produces: shaped
board, status/line agreement, and `winning_line` pointing at the first
scanned winning triple exactly when the game is won. -/
def GameInv (g : Game) : Prop :=
  Shaped g.board ∧
  (g.game_status = "won" ↔ hasLineFor g.board Cell.X) ∧
  (g.game_status = "lost" ↔ hasLineFor g.board Cell.O) ∧
  (g.game_status = "playing" → TicTacToeGame.is_board_full g.board = false) ∧
  (g.game_status = "playing" → g.winning_line = none) ∧
  ((g.game_status = "won" ∨ g.game_status = "lost") →
    ∃ t m, winnerLine g.board = some (t, m) ∧
      g.winning_line = some (tripleToList t))

theorem inv_new (d : String) : GameInv (TicTacToeGame.new d) := by
  have hb : (TicTacToeGame.new d).board =
      [[Cell.empty, Cell.empty, Cell.empty],
       [Cell.empty, Cell.empty, Cell.empty],
       [Cell.empty, Cell.empty, Cell.empty]] := rfl
  have hs : (TicTacToeGame.new d).game_status = "playing" := rfl
  have hw : (TicTacToeGame.new d).winning_line = none := rfl
  unfold GameInv
  rw [hb, hs, hw]
  exact ⟨by decide, by decide, by decide, by decide, by decide,
    fun h => absurd h (by decide)⟩

theorem inv_step {g g' : Game} {row col : Int} {p : Cell}
    (hg : GameInv g) (hm : TicTacToeGame.make_move g row col p = (true, g')) :
    GameInv g' := by
  obtain ⟨hsh, hwonIff, hlostIff, hfull, hwl, hwin⟩ := hg
  have hv : TicTacToeGame.is_valid_move g row col = true := by
    by_cases h : TicTacToeGame.is_valid_move g row col
    · exact h
    · rw [TicTacToeGame.make_move_fail (Or.inl (by simpa using h))] at hm
      simp at hm
  have hp : p = g.current_player := by
    by_cases h : p = g.current_player
    · exact h
    · rw [TicTacToeGame.make_move_fail (Or.inr h)] at hm
      simp at hm
  obtain ⟨hr0, hr2, hc0, hc2, hcell, hstat⟩ :=
    TicTacToeGame.is_valid_move_iff.mp hv
  have hrn : row.toNat < 3 := by omega
  have hcn : col.toNat < 3 := by omega
  have hnx : ¬ hasLineFor g.board Cell.X := by
    intro h
    have := hwonIff.mpr h
    rw [hstat] at this
    exact absurd this (by decide)
  have hno : ¬ hasLineFor g.board Cell.O := by
    intro h
    have := hlostIff.mpr h
    rw [hstat] at this
    exact absurd this (by decide)
  have hsh' : Shaped (setCell g.board row.toNat col.toNat p) :=
    shaped_setCell hsh hrn hcn p
  cases hwlb : winnerLine (setCell g.board row.toNat col.toNat p) with
  | some tm =>
    obtain ⟨t, m⟩ := tm
    rw [TicTacToeGame.make_move_eq_of_winner hv hp hwlb] at hm
    have hg2 := congrArg Prod.snd hm
    simp only at hg2
    have hb : g'.board = setCell g.board row.toNat col.toNat p := by
      rw [← hg2]
    have hst : g'.game_status = (if m = Cell.X then "won" else "lost") := by
      rw [← hg2]
    have hwl' : g'.winning_line = some (tripleToList t) := by
      rw [← hg2]
    obtain ⟨htW, htline, hm_ne⟩ := winnerLine_eq_some hwlb
    have hmp : m = p := by
      rcases hasLineFor_setCell hsh hrn hcn ⟨t, htW, htline⟩ with h | h
      · cases m with
        | empty => exact absurd rfl hm_ne
        | X => exact absurd h hnx
        | O => exact absurd h hno
      · exact h
    have honly : ∀ m', m' ≠ Cell.empty →
        hasLineFor (setCell g.board row.toNat col.toNat p) m' → m' = p := by
      intro m' hne' h
      rcases hasLineFor_setCell hsh hrn hcn h with h' | h'
      · cases m' with
        | empty => exact absurd rfl hne'
        | X => exact absurd h' hnx
        | O => exact absurd h' hno
      · exact h'
    by_cases hmX : m = Cell.X
    · subst hmX
      rw [if_pos rfl] at hst
      refine ⟨by rw [hb]; exact hsh', ?_, ?_, ?_, ?_, ?_⟩
      · rw [hst, hb]
        exact ⟨fun _ => ⟨t, htW, htline⟩, fun _ => rfl⟩
      · rw [hst, hb]
        constructor
        · intro h; exact absurd h (by decide)
        · intro h
          have hOX : Cell.O = p := honly Cell.O (by decide) h
          rw [← hmp] at hOX
          cases hOX
      · rw [hst]
        intro h; exact absurd h (by decide)
      · rw [hst]
        intro h; exact absurd h (by decide)
      · intro _
        exact ⟨t, Cell.X, by rw [hb]; exact hwlb, hwl'⟩
    · have hmO : m = Cell.O := by
        cases m with
        | empty => exact absurd rfl hm_ne
        | X => exact absurd rfl hmX
        | O => rfl
      subst hmO
      rw [if_neg hmX] at hst
      refine ⟨by rw [hb]; exact hsh', ?_, ?_, ?_, ?_, ?_⟩
      · rw [hst, hb]
        constructor
        · intro h; exact absurd h (by decide)
        · intro h
          have hXO : Cell.X = p := honly Cell.X (by decide) h
          rw [← hmp] at hXO
          cases hXO
      · rw [hst, hb]
        exact ⟨fun _ => ⟨t, htW, htline⟩, fun _ => rfl⟩
      · rw [hst]
        intro h; exact absurd h (by decide)
      · rw [hst]
        intro h; exact absurd h (by decide)
      · intro _
        exact ⟨t, Cell.O, by rw [hb]; exact hwlb, hwl'⟩
  | none =>
    have hnx' := (winnerLine_eq_none_iff.mp hwlb).1
    have hno' := (winnerLine_eq_none_iff.mp hwlb).2
    cases hfb : TicTacToeGame.is_board_full (setCell g.board row.toNat col.toNat p) with
    | true =>
      rw [TicTacToeGame.make_move_eq_of_draw hv hp hwlb hfb] at hm
      have hg2 := congrArg Prod.snd hm
      simp only at hg2
      have hb : g'.board = setCell g.board row.toNat col.toNat p := by
        rw [← hg2]
      have hst : g'.game_status = "draw" := by
        rw [← hg2]
      refine ⟨by rw [hb]; exact hsh', ?_, ?_, ?_, ?_, ?_⟩
      · rw [hst, hb]
        exact ⟨fun h => absurd h (by decide), fun h => absurd h hnx'⟩
      · rw [hst, hb]
        exact ⟨fun h => absurd h (by decide), fun h => absurd h hno'⟩
      · rw [hst]
        intro h; exact absurd h (by decide)
      · rw [hst]
        intro h; exact absurd h (by decide)
      · rw [hst]
        intro h
        rcases h with h | h <;> exact absurd h (by decide)
    | false =>
      rw [TicTacToeGame.make_move_eq_of_continue hv hp hwlb hfb] at hm
      have hg2 := congrArg Prod.snd hm
      simp only at hg2
      have hb : g'.board = setCell g.board row.toNat col.toNat p := by
        rw [← hg2]
      have hst : g'.game_status = g.game_status := by
        rw [← hg2]
      have hwl2 : g'.winning_line = g.winning_line := by
        rw [← hg2]
      refine ⟨by rw [hb]; exact hsh', ?_, ?_, ?_, ?_, ?_⟩
      · rw [hst, hb, hstat]
        exact ⟨fun h => absurd h (by decide), fun h => absurd h hnx'⟩
      · rw [hst, hb, hstat]
        exact ⟨fun h => absurd h (by decide), fun h => absurd h hno'⟩
      · intro _
        rw [hb]
        exact hfb
      · intro _
        rw [hwl2]
        exact hwl hstat
      · rw [hst, hstat]
        intro h
        rcases h with h | h <;> exact absurd h (by decide)

theorem reachable_inv {g : Game} (h : Reachable g) : GameInv g := by
  induction h with
  | new d => exact inv_new d
  | step _ hm ih => exact inv_step ih hm

/-! ## Win-in-one scans and minimax value helpers -/

theorem not_full_of_mem_empty {b : Board} (hb : Shaped b) {q : Nat × Nat}
    (h : q ∈ TicTacToeGame.get_empty_cells b) :
    TicTacToeGame.is_board_full b = false := by
  obtain ⟨hcells, hempty⟩ := mem_get_empty_cells.mp h
  obtain ⟨h1, h2⟩ := mem_CELLS_iff.mp hcells
  cases hfb : TicTacToeGame.is_board_full b with
  | false => rfl
  | true =>
    exfalso
    unfold TicTacToeGame.is_board_full at hfb
    rw [List.all_eq_true] at hfb
    have hrow : b.getD q.1 [] ∈ b := by
      rw [getD_eq_getElem (show q.1 < b.length by rw [hb.1]; omega)]
      exact List.getElem_mem _
    have hlen : q.2 < (b.getD q.1 []).length := by
      rw [shaped_row hb h1]; omega
    have hcellmem : getCell b q.1 q.2 ∈ b.getD q.1 [] := by
      unfold getCell
      rw [getD_eq_getElem hlen]
      exact List.getElem_mem _
    have hall := hfb _ hrow
    rw [List.all_eq_true] at hall
    have := hall _ hcellmem
    rw [hempty] at this
    simp at this

theorem find_winning_aux_eq_none_iff {b : Board} {p : Cell}
    {l : List (Nat × Nat)} :
    TicTacToeAI.find_winning_aux b p l = none ↔
      ∀ q ∈ l, winnerMark (setCell b q.1 q.2 p) ≠ some p := by
  induction l with
  | nil => simp [TicTacToeAI.find_winning_aux]
  | cons q rest ih =>
    obtain ⟨qr, qc⟩ := q
    by_cases h : winnerMark (setCell b qr qc p) = some p
    · simp [TicTacToeAI.find_winning_aux, h]
    · simp [TicTacToeAI.find_winning_aux, h, ih]

theorem find_winning_aux_eq_some {b : Board} {p : Cell}
    {l : List (Nat × Nat)} {rc : Nat × Nat}
    (h : TicTacToeAI.find_winning_aux b p l = some rc) :
    ∃ l1 l2, l = l1 ++ rc :: l2 ∧
      winnerMark (setCell b rc.1 rc.2 p) = some p ∧
      ∀ q ∈ l1, winnerMark (setCell b q.1 q.2 p) ≠ some p := by
  induction l with
  | nil => cases h
  | cons q rest ih =>
    obtain ⟨qr, qc⟩ := q
    by_cases hq : winnerMark (setCell b qr qc p) = some p
    · rw [show TicTacToeAI.find_winning_aux b p ((qr, qc) :: rest) =
          some (qr, qc) by simp [TicTacToeAI.find_winning_aux, hq]] at h
      cases h
      exact ⟨[], rest, rfl, hq, by intro q hq'; cases hq'⟩
    · rw [show TicTacToeAI.find_winning_aux b p ((qr, qc) :: rest) =
          TicTacToeAI.find_winning_aux b p rest
          by simp [TicTacToeAI.find_winning_aux, hq]] at h
      obtain ⟨l1, l2, heq, hwin, hnone⟩ := ih h
      refine ⟨(qr, qc) :: l1, l2, by rw [heq]; rfl, hwin, ?_⟩
      intro q hq'
      rcases List.mem_cons.mp hq' with h' | h'
      · rw [h']; exact hq
      · exact hnone q h'

/-- The game-theoretic value of a board (minimax with ample fuel). -/
def gameValue (b : Board) (mx : Bool) : Int :=
  TicTacToeAI.mmVal 10 b mx

theorem mmVal_ten_unfold (b : Board) (hw : winnerMark b = none)
    (hfull : TicTacToeGame.is_board_full b = false) :
    TicTacToeAI.mmVal 10 b true =
      (TicTacToeGame.get_empty_cells b).foldl
        (fun a c => max a (TicTacToeAI.mmVal 9
          (setCell b c.1 c.2 TicTacToeAI.ai_player) false)) (-1000) := by
  rw [show (10 : Nat) = 9 + 1 from rfl, TicTacToeAI.mmVal_succ]
  rw [if_neg (by rw [hw]; simp), if_neg (by rw [hw]; simp),
    if_neg (by rw [hfull]; simp)]
  simp

/-- If some empty cell immediately wins for O then the position's value is
the maximal score 10. -/
theorem value_ten_of_win_in_one {b : Board} (hb : Shaped b)
    (hw : winnerMark b = none)
    (hfull : TicTacToeGame.is_board_full b = false)
    {c : Nat × Nat} (hc : c ∈ TicTacToeGame.get_empty_cells b)
    (hwin : winnerMark (setCell b c.1 c.2 Cell.O) = some Cell.O) :
    gameValue b true = 10 := by
  have hf : (TicTacToeGame.get_empty_cells b).length < 10 := by
    have := TicTacToeAI.empty_cells_le_9 b; omega
  have hwin' : winnerMark (setCell b c.1 c.2 TicTacToeAI.ai_player) =
      some TicTacToeAI.ai_player := hwin
  have hchild : TicTacToeAI.mmVal 9
      (setCell b c.1 c.2 TicTacToeAI.ai_player) false = 10 := by
    rw [show (9 : Nat) = 8 + 1 from rfl, TicTacToeAI.mmVal_succ, if_pos hwin']
  have hge : (10 : Int) ≤ TicTacToeAI.mmVal 10 b true := by
    rw [mmVal_ten_unfold b hw hfull]
    calc (10 : Int) = TicTacToeAI.mmVal 9
          (setCell b c.1 c.2 TicTacToeAI.ai_player) false := hchild.symm
    _ ≤ _ := mem_le_foldl_max
          (fun d => TicTacToeAI.mmVal 9 (setCell b d.1 d.2 TicTacToeAI.ai_player) false)
          (TicTacToeGame.get_empty_cells b) (-1000) c hc
  have hle := (TicTacToeAI.mmVal_bounds 10 b true hb hf).2
  unfold gameValue
  omega

/-- If no empty cell immediately wins for O and the move `mv` leaves the
opponent a win-in-one, the child position after `mv` has the minimal value
-10. -/
theorem child_loses_of_allows_win {b : Board} (hb : Shaped b)
    (hw : winnerMark b = none)
    {mv : Nat × Nat} (hmv : mv ∈ TicTacToeGame.get_empty_cells b)
    (hnowin : ∀ c ∈ TicTacToeGame.get_empty_cells b,
      winnerMark (setCell b c.1 c.2 Cell.O) ≠ some Cell.O)
    {w : Nat × Nat}
    (hwmem : w ∈ TicTacToeGame.get_empty_cells (setCell b mv.1 mv.2 Cell.O))
    (hxwin : winnerMark
      (setCell (setCell b mv.1 mv.2 Cell.O) w.1 w.2 Cell.X) = some Cell.X) :
    TicTacToeAI.mmVal 9 (setCell b mv.1 mv.2 Cell.O) false = -10 := by
  have hr1 : mv.1 < 3 := (TicTacToeAI.mem_empty_lt hmv).1
  have hc1 : mv.2 < 3 := (TicTacToeAI.mem_empty_lt hmv).2
  have hshc : Shaped (setCell b mv.1 mv.2 Cell.O) := shaped_setCell hb hr1 hc1 _
  have hnoX : ¬ hasLineFor (setCell b mv.1 mv.2 Cell.O) Cell.X := by
    intro h
    rcases hasLineFor_setCell hb hr1 hc1 h with h' | h'
    · exact (winnerMark_eq_none_iff.mp hw).1 h'
    · cases h'
  have hwc : winnerMark (setCell b mv.1 mv.2 Cell.O) = none := by
    cases hwm : winnerMark (setCell b mv.1 mv.2 Cell.O) with
    | none => rfl
    | some m =>
      exfalso
      obtain ⟨hline, hmne⟩ := winnerMark_eq_some hwm
      cases m with
      | empty => exact hmne rfl
      | X => exact hnoX hline
      | O => exact hnowin mv hmv hwm
  have hfullc : TicTacToeGame.is_board_full (setCell b mv.1 mv.2 Cell.O) = false :=
    not_full_of_mem_empty hshc hwmem
  have hfc : (TicTacToeGame.get_empty_cells (setCell b mv.1 mv.2 Cell.O)).length < 9 := by
    have h1 := TicTacToeAI.empty_cells_le_9 b
    have h2 := get_empty_cells_length_setCell hb
      (show Cell.O ≠ Cell.empty by decide) hmv
    omega
  have hxwin' : winnerMark
      (setCell (setCell b mv.1 mv.2 Cell.O) w.1 w.2 TicTacToeAI.human_player) =
      some TicTacToeAI.human_player := hxwin
  have hgrand : TicTacToeAI.mmVal 8
      (setCell (setCell b mv.1 mv.2 Cell.O) w.1 w.2 TicTacToeAI.human_player)
      true = -10 := by
    rw [show (8 : Nat) = 7 + 1 from rfl, TicTacToeAI.mmVal_succ]
    rw [if_neg (by rw [hxwin']; decide), if_pos hxwin']
  rw [show (9 : Nat) = 8 + 1 from rfl, TicTacToeAI.mmVal_succ]
  rw [if_neg (by rw [hwc]; simp), if_neg (by rw [hwc]; simp),
    if_neg (by rw [hfullc]; simp), if_neg Bool.false_ne_true]
  have hle := foldl_min_le_mem
      (fun d => TicTacToeAI.mmVal 8
        (setCell (setCell b mv.1 mv.2 Cell.O) d.1 d.2 TicTacToeAI.human_player) true)
      (TicTacToeGame.get_empty_cells (setCell b mv.1 mv.2 Cell.O)) 1000 w hwmem
  simp only at hle
  have hbnds : ∀ d, d ∈ TicTacToeGame.get_empty_cells (setCell b mv.1 mv.2 Cell.O) →
      (-10 : Int) ≤ TicTacToeAI.mmVal 8
        (setCell (setCell b mv.1 mv.2 Cell.O) d.1 d.2 TicTacToeAI.human_player) true :=
    fun d hd => (TicTacToeAI.mmVal_bounds 8
      (setCell (setCell b mv.1 mv.2 Cell.O) d.1 d.2 TicTacToeAI.human_player) true
      (TicTacToeAI.shaped_child hshc hd TicTacToeAI.human_player)
      (TicTacToeAI.child_fuel hshc
        (show TicTacToeAI.human_player ≠ Cell.empty by decide) hd hfc)).1
  have hge : (-10 : Int) ≤
      (TicTacToeGame.get_empty_cells (setCell b mv.1 mv.2 Cell.O)).foldl
      (fun acc c => min acc (TicTacToeAI.mmVal 8
        (setCell (setCell b mv.1 mv.2 Cell.O) c.1 c.2 TicTacToeAI.human_player) true))
      1000 := by
    apply le_foldl_min
    · omega
    · intro d hd
      exact hbnds d hd
  omega

/-! ## Building reachable states by evaluation -/

/-- Apply a list of moves in sequence. -/
def playMoves (g : Game) : List (Int × Int × Cell) → Game
  | [] => g
  | (r, c, p) :: rest => playMoves (TicTacToeGame.make_move g r c p).2 rest

/-- All moves in the list succeed in sequence. -/
def stepsOk (g : Game) : List (Int × Int × Cell) → Bool
  | [] => true
  | (r, c, p) :: rest =>
    (TicTacToeGame.make_move g r c p).1 && stepsOk (TicTacToeGame.make_move g r c p).2 rest

theorem reachable_playMoves :
    ∀ (l : List (Int × Int × Cell)) (g : Game), Reachable g →
      stepsOk g l = true → Reachable (playMoves g l)
  | [], g, hg, _ => hg
  | (r, c, p) :: rest, g, hg, hok => by
    unfold stepsOk at hok
    rw [Bool.and_eq_true] at hok
    have hstep : TicTacToeGame.make_move g r c p =
        (true, (TicTacToeGame.make_move g r c p).2) := by
      have := hok.1
      exact Prod.ext this rfl
    exact reachable_playMoves rest _ (Reachable.step hg hstep) hok.2

/-! ## Session-data validator of the game routes -/

namespace GameRoutes

/-- `_validate_session_game_data(game_data)` from `app/routes/game.py`:
required keys present, `current_player` in `['X','O']`, `game_status` in
`['playing','won','draw','quit']`, `difficulty` in `['easy','medium','hard']`,
and a 3x3 board.  (The source's per-cell check `cell in ['','X','O']` is
always satisfied in the closed cell domain of the data model.)  Note the
status list: it admits `'quit'` and omits the model's `'lost'`. -/
def _validate_session_game_data (d : TicTacToeGame.Snapshot) : Bool :=
  (d.board.isSome && d.current_player.isSome &&
    d.game_status.isSome && d.difficulty.isSome) &&
  (match d.current_player with
   | some c => decide (c = Cell.X ∨ c = Cell.O)
   | none => false) &&
  (match d.game_status with
   | some s => decide (s = "playing" ∨ s = "won" ∨ s = "draw" ∨ s = "quit")
   | none => false) &&
  (match d.difficulty with
   | some s => decide (s = "easy" ∨ s = "medium" ∨ s = "hard")
   | none => false) &&
  (match d.board with
   | some b => decide (b.length = 3) &&
       b.all (fun row => decide (row.length = 3))
   | none => false)

end GameRoutes

/-- `status = Won(m)` of the specification, in the code's encoding:
`'won'` records an X win and `'lost'` an O win. -/
def wonFor (g : Game) (m : Cell) : Prop :=
  (m = Cell.X ∧ g.game_status = "won") ∨ (m = Cell.O ∧ g.game_status = "lost")

theorem choice_mem {l : List (Nat × Nat)} (h : l ≠ []) (k : Nat) :
    TicTacToeAI.choice l k ∈ l := by
  unfold TicTacToeAI.choice
  have hlen : 0 < l.length := List.length_pos.mpr h
  have hk : k % l.length < l.length := Nat.mod_lt _ hlen
  rw [getD_eq_getElem hk]
  exact List.getElem_mem _

theorem find_first_append {α : Type} (p : α → Bool) (l1 l2 : List α) (a : α)
    (h1 : ∀ x ∈ l1, p x = false) (ha : p a = true) :
    (l1 ++ a :: l2).find? p = some a := by
  induction l1 with
  | nil => simp [List.find?, ha]
  | cons x xs ih =>
    have hx : p x = false := h1 x (List.mem_cons_self x xs)
    simp only [List.cons_append, List.find?, hx]
    exact ih (fun y hy => h1 y (List.mem_cons_of_mem x hy))

/-! ## Concrete states and snapshots used as counterexamples -/

/-- A state with (0,0) occupied by X and O to move: an in-turn move to the
occupied square is an illegal-position failure. -/
def cxOccupied : Game :=
  (TicTacToeGame.make_move (TicTacToeGame.new "medium") 0 0 Cell.X).2

/-- Reachable position `[[O,X,X],[.,O,.],[X,.,.]]`, O to move: O has the
immediate win (2,2), but move (1,0) also forces a win (double threat) and
is scanned first. -/
def cxGameA : Game :=
  playMoves (TicTacToeGame.new "hard")
    [(0, 1, Cell.X), (0, 0, Cell.O), (0, 2, Cell.X), (1, 1, Cell.O), (2, 0, Cell.X)]

/-- Reachable position `[[X,O,.],[.,X,.],[.,.,.]]`, O to move: every move
loses by force; the only move avoiding an immediate X win-in-one is (2,2),
but all moves score -10, so the first empty cell (0,2) is returned. -/
def cxGameB : Game :=
  playMoves (TicTacToeGame.new "hard")
    [(0, 0, Cell.X), (0, 1, Cell.O), (1, 1, Cell.X)]

/-- Snapshot with a wrong cell count (3 rows of 2 cells). -/
def snapBadBoard : TicTacToeGame.Snapshot :=
  { board := some [[Cell.empty, Cell.empty], [Cell.empty, Cell.empty],
                   [Cell.empty, Cell.empty]]
  , current_player := some Cell.X
  , game_status := some "playing"
  , difficulty := some "medium"
  , winner := none
  , winning_line := none }

/-- Snapshot whose turn value is outside {X, O}. -/
def snapBadTurn : TicTacToeGame.Snapshot :=
  { board := some [[Cell.empty, Cell.empty, Cell.empty],
                   [Cell.empty, Cell.empty, Cell.empty],
                   [Cell.empty, Cell.empty, Cell.empty]]
  , current_player := some Cell.empty
  , game_status := some "playing"
  , difficulty := some "medium"
  , winner := none
  , winning_line := none }

/-- Snapshot claiming a won game over a board with no three-in-a-row. -/
def snapWonNoLine : TicTacToeGame.Snapshot :=
  { board := some [[Cell.empty, Cell.empty, Cell.empty],
                   [Cell.empty, Cell.empty, Cell.empty],
                   [Cell.empty, Cell.empty, Cell.empty]]
  , current_player := some Cell.X
  , game_status := some "won"
  , difficulty := some "medium"
  , winner := some Cell.X
  , winning_line := none }

/-- Snapshot claiming a draw while a cell is still empty. -/
def snapDrawEmpty : TicTacToeGame.Snapshot :=
  { board := some [[Cell.X, Cell.O, Cell.X],
                   [Cell.O, Cell.X, Cell.O],
                   [Cell.O, Cell.X, Cell.empty]]
  , current_player := some Cell.X
  , game_status := some "draw"
  , difficulty := some "medium"
  , winner := none
  , winning_line := none }

/-! ## Claim theorems -/

/-- C8: `is_valid_move` is a total pure predicate: for every state and
every integer pair, including negative and out-of-range coordinates, it
returns a boolean without error (it is a function of the state, so it
cannot mutate), and it returns true exactly when the row and column are in
[0,2], the addressed cell is empty, and the status is `'playing'`. -/
theorem C8_is_valid_move_total (g : Game) (row col : Int) :
    TicTacToeGame.is_valid_move g row col = true ↔
      (0 ≤ row ∧ row ≤ 2 ∧ 0 ≤ col ∧ col ≤ 2 ∧
       getCell g.board row.toNat col.toNat = Cell.empty ∧
       g.game_status = "playing") :=
  TicTacToeGame.is_valid_move_iff

/-- C6: the snapshot round-trip law: restoring the snapshot of a reachable
state reproduces the state in every field. -/
theorem C6_snapshot_roundtrip (g : Game) (h : Reachable g) :
    TicTacToeGame.from_dict (TicTacToeGame.to_dict g) = g := rfl

/-- Witness for C6 at the fresh game. -/
theorem C6_witness :
    Reachable (TicTacToeGame.new "medium") ∧
    TicTacToeGame.from_dict (TicTacToeGame.to_dict (TicTacToeGame.new "medium")) =
      TicTacToeGame.new "medium" :=
  ⟨Reachable.new "medium",
   C6_snapshot_roundtrip (TicTacToeGame.new "medium") (Reachable.new "medium")⟩

/-- C10: `check_winner` never clears `winning_line`: on a board with no
all-X and no all-O triple it returns `None` and leaves the whole game — in
particular a stale non-`None` `winning_line` — exactly as it was. -/
theorem C10_check_winner_frame (g : Game)
    (hX : ¬ hasLineFor g.board Cell.X) (hO : ¬ hasLineFor g.board Cell.O) :
    TicTacToeGame.check_winner g = (none, g) ∧
    (TicTacToeGame.check_winner g).2.winning_line = g.winning_line := by
  have h : TicTacToeGame.check_winner g = (none, g) := by
    unfold TicTacToeGame.check_winner
    rw [winnerLine_eq_none_iff.mpr ⟨hX, hO⟩]
  exact ⟨h, by rw [h]⟩

/-- Witness for C10: a game carrying a stale `winning_line` over a lineless
board keeps it across the query. -/
theorem C10_witness :
    ¬ hasLineFor [[Cell.X, Cell.empty, Cell.empty],
                  [Cell.empty, Cell.O, Cell.empty],
                  [Cell.empty, Cell.empty, Cell.empty]] Cell.X ∧
    ¬ hasLineFor [[Cell.X, Cell.empty, Cell.empty],
                  [Cell.empty, Cell.O, Cell.empty],
                  [Cell.empty, Cell.empty, Cell.empty]] Cell.O ∧
    (TicTacToeGame.check_winner
      { board := [[Cell.X, Cell.empty, Cell.empty],
                  [Cell.empty, Cell.O, Cell.empty],
                  [Cell.empty, Cell.empty, Cell.empty]]
      , current_player := Cell.X
      , game_status := "playing"
      , difficulty := "medium"
      , winner := none
      , winning_line := some [(9, 9), (9, 9), (9, 9)] }).2.winning_line =
      some [(9, 9), (9, 9), (9, 9)] :=
  ⟨by decide, by decide,
   (C10_check_winner_frame
     { board := [[Cell.X, Cell.empty, Cell.empty],
                 [Cell.empty, Cell.O, Cell.empty],
                 [Cell.empty, Cell.empty, Cell.empty]]
     , current_player := Cell.X
     , game_status := "playing"
     , difficulty := "medium"
     , winner := none
     , winning_line := some [(9, 9), (9, 9), (9, 9)] }
     (by decide) (by decide)).2⟩

/-- C3 counterexample: `make_move` does not signal distinct `OutOfTurn` and
`IllegalPosition` failures.  An out-of-turn move on a fresh game and an
in-turn move to an occupied square produce the identical result — the bare
flag `false` with the state unchanged — so the two failure modes claimed by
the specification are indistinguishable in the code. -/
theorem C3_counterexample :
    TicTacToeGame.make_move (TicTacToeGame.new "medium") 0 0 Cell.O =
      (false, TicTacToeGame.new "medium") ∧
    Cell.O ≠ (TicTacToeGame.new "medium").current_player ∧
    TicTacToeGame.is_valid_move (TicTacToeGame.new "medium") 0 0 = true ∧
    TicTacToeGame.make_move cxOccupied 0 0 Cell.O = (false, cxOccupied) ∧
    Cell.O = cxOccupied.current_player ∧
    TicTacToeGame.is_valid_move cxOccupied 0 0 = false ∧
    (TicTacToeGame.make_move (TicTacToeGame.new "medium") 0 0 Cell.O).1 =
      (TicTacToeGame.make_move cxOccupied 0 0 Cell.O).1 := by
  decide

/-- C3 (amended): `make_move` signals failure only through the returned
flag `false`, identically for both failure modes: it fails whenever the
position is invalid (checked first) or the mark is out of turn, the same
mark twice in a row always fails, and on every failure the state is left
unchanged. -/
theorem C3_make_move_failure :
    (∀ (g : Game) (row col : Int) (p : Cell),
      TicTacToeGame.is_valid_move g row col = false ∨ p ≠ g.current_player →
      TicTacToeGame.make_move g row col p = (false, g)) ∧
    (∀ (g g' : Game) (row col : Int) (p : Cell),
      TicTacToeGame.make_move g row col p = (true, g') →
      ∀ (row' col' : Int),
        (TicTacToeGame.make_move g' row' col' p).1 = false) := by
  constructor
  · intro g row col p h
    exact TicTacToeGame.make_move_fail h
  · intro g g' row col p hm row' col'
    have hv : TicTacToeGame.is_valid_move g row col = true := by
      by_cases h : TicTacToeGame.is_valid_move g row col
      · exact h
      · rw [TicTacToeGame.make_move_fail (Or.inl (by simpa using h))] at hm
        simp at hm
    have hp : p = g.current_player := by
      by_cases h : p = g.current_player
      · exact h
      · rw [TicTacToeGame.make_move_fail (Or.inr h)] at hm
        simp at hm
    by_cases hv2 : TicTacToeGame.is_valid_move g' row' col'
    · have hstat2 := (TicTacToeGame.is_valid_move_iff.mp hv2).2.2.2.2.2
      cases hwlb : winnerLine (setCell g.board row.toNat col.toNat p) with
      | some tm =>
        obtain ⟨t, m⟩ := tm
        rw [TicTacToeGame.make_move_eq_of_winner hv hp hwlb] at hm
        have hg2 := congrArg Prod.snd hm
        simp only at hg2
        have hst : g'.game_status = (if m = Cell.X then "won" else "lost") := by
          rw [← hg2]
        rw [hst] at hstat2
        split_ifs at hstat2 <;> exact absurd hstat2 (by decide)
      | none =>
        cases hfb : TicTacToeGame.is_board_full
            (setCell g.board row.toNat col.toNat p) with
        | true =>
          rw [TicTacToeGame.make_move_eq_of_draw hv hp hwlb hfb] at hm
          have hg2 := congrArg Prod.snd hm
          simp only at hg2
          have hst : g'.game_status = "draw" := by rw [← hg2]
          rw [hst] at hstat2
          exact absurd hstat2 (by decide)
        | false =>
          rw [TicTacToeGame.make_move_eq_of_continue hv hp hwlb hfb] at hm
          have hg2 := congrArg Prod.snd hm
          simp only at hg2
          have hcur : g'.current_player = TicTacToeGame.flip_player p := by
            rw [← hg2]
          have hne : p ≠ g'.current_player := by
            rw [hcur]
            unfold TicTacToeGame.flip_player
            cases p <;> decide
          rw [TicTacToeGame.make_move_fail (Or.inr hne)]
    · rw [TicTacToeGame.make_move_fail (Or.inl (by simpa using hv2))]

/-- Witness for C3 (amended): the out-of-turn failure on the fresh game. -/
theorem C3_witness :
    (TicTacToeGame.is_valid_move (TicTacToeGame.new "medium") 0 0 = false ∨
      Cell.O ≠ (TicTacToeGame.new "medium").current_player) ∧
    TicTacToeGame.make_move (TicTacToeGame.new "medium") 0 0 Cell.O =
      (false, TicTacToeGame.new "medium") :=
  ⟨Or.inr (by decide),
   C3_make_move_failure.1 (TicTacToeGame.new "medium") 0 0 Cell.O
     (Or.inr (by decide))⟩

/-- C2 counterexample: `from_dict` performs no re-validation and never
fails: it returns a game state even for each malformed snapshot named by
the claim — wrong cell count, out-of-domain turn, `'won'` with no
three-in-a-row, and `'draw'` with an empty cell still present.  (No
`CorruptState` failure exists; the function is total.) -/
theorem C2_counterexample :
    TicTacToeGame.from_dict snapBadBoard =
      { board := [[Cell.empty, Cell.empty], [Cell.empty, Cell.empty],
                  [Cell.empty, Cell.empty]]
      , current_player := Cell.X
      , game_status := "playing"
      , difficulty := "medium"
      , winner := none
      , winning_line := none } ∧
    (TicTacToeGame.from_dict snapBadBoard).board.length = 3 ∧
    ((TicTacToeGame.from_dict snapBadBoard).board.getD 0 []).length = 2 ∧
    (TicTacToeGame.from_dict snapBadTurn).current_player = Cell.empty ∧
    (TicTacToeGame.from_dict snapWonNoLine).game_status = "won" ∧
    ¬ hasLineFor (TicTacToeGame.from_dict snapWonNoLine).board Cell.X ∧
    ¬ hasLineFor (TicTacToeGame.from_dict snapWonNoLine).board Cell.O ∧
    (TicTacToeGame.from_dict snapDrawEmpty).game_status = "draw" ∧
    getCell (TicTacToeGame.from_dict snapDrawEmpty).board 2 2 = Cell.empty := by
  decide

/-- C2 (amended): `from_dict` itself validates nothing — it always returns
a game whose fields are copied from the snapshot (with defaults for
missing keys).  The only integrity checking is the route layer's
`_validate_session_game_data`, which rejects boards with a wrong cell
count and turns outside {X,O}, but accepts a `'won'` status with no
three-in-a-row and a `'draw'` status with an empty cell present. -/
theorem C2_restore_behavior :
    (∀ (d : TicTacToeGame.Snapshot) (b : Board),
      d.board = some b → b.length ≠ 3 →
      GameRoutes._validate_session_game_data d = false) ∧
    (∀ (d : TicTacToeGame.Snapshot) (b : Board) (row : List Cell),
      d.board = some b → row ∈ b → row.length ≠ 3 →
      GameRoutes._validate_session_game_data d = false) ∧
    (∀ d : TicTacToeGame.Snapshot,
      d.current_player = some Cell.empty →
      GameRoutes._validate_session_game_data d = false) ∧
    GameRoutes._validate_session_game_data snapWonNoLine = true ∧
    GameRoutes._validate_session_game_data snapDrawEmpty = true ∧
    (∀ d : TicTacToeGame.Snapshot,
      TicTacToeGame.from_dict d =
        { board := d.board.getD (TicTacToeGame.new "medium").board
        , current_player := d.current_player.getD Cell.X
        , game_status := d.game_status.getD "playing"
        , difficulty := d.difficulty.getD "medium"
        , winner := d.winner
        , winning_line := d.winning_line }) := by
  refine ⟨?_, ?_, ?_, by decide, by decide, fun d => rfl⟩
  · intro d b hb hlen
    unfold GameRoutes._validate_session_game_data
    rw [hb]
    simp [hlen]
  · intro d b row hb hrow hlen
    unfold GameRoutes._validate_session_game_data
    rw [hb]
    have : b.all (fun row => decide (row.length = 3)) = false :=
      List.all_eq_false.mpr ⟨row, hrow, by simp [hlen]⟩
    simp [this]
  · intro d hc
    unfold GameRoutes._validate_session_game_data
    rw [hc]
    simp

/-- Witness for C2 (amended) at the wrong-cell-count snapshot. -/
theorem C2_witness :
    snapBadBoard.board =
      some [[Cell.empty, Cell.empty], [Cell.empty, Cell.empty],
            [Cell.empty, Cell.empty]] ∧
    ([[Cell.empty, Cell.empty], [Cell.empty, Cell.empty],
      [Cell.empty, Cell.empty]] : Board).getD 0 [] ∈
      ([[Cell.empty, Cell.empty], [Cell.empty, Cell.empty],
        [Cell.empty, Cell.empty]] : Board) ∧
    GameRoutes._validate_session_game_data snapBadBoard = false :=
  ⟨rfl, by decide,
   C2_restore_behavior.2.1 snapBadBoard
     [[Cell.empty, Cell.empty], [Cell.empty, Cell.empty],
      [Cell.empty, Cell.empty]]
     [Cell.empty, Cell.empty] rfl (by decide) (by decide)⟩

/-- C9 counterexample: with a full board and a difficulty outside
{easy, medium, hard}, `get_move` raises the no-moves error, not the
invalid-difficulty error the claim demands for every invalid difficulty. -/
theorem C9_counterexample :
    TicTacToeGame.get_empty_cells
      ({ board := [[Cell.X, Cell.O, Cell.X],
                   [Cell.O, Cell.X, Cell.O],
                   [Cell.O, Cell.X, Cell.O]]
       , current_player := Cell.X
       , game_status := "playing"
       , difficulty := "medium"
       , winner := none
       , winning_line := none } : Game).board = [] ∧
    ("expert" ∉ (["easy", "medium", "hard"] : List String)) ∧
    TicTacToeAI.get_move "expert"
      { board := [[Cell.X, Cell.O, Cell.X],
                  [Cell.O, Cell.X, Cell.O],
                  [Cell.O, Cell.X, Cell.O]]
      , current_player := Cell.X
      , game_status := "playing"
      , difficulty := "medium"
      , winner := none
      , winning_line := none } false 0 =
      Except.error "No valid moves available" ∧
    TicTacToeAI.get_move "expert"
      { board := [[Cell.X, Cell.O, Cell.X],
                  [Cell.O, Cell.X, Cell.O],
                  [Cell.O, Cell.X, Cell.O]]
      , current_player := Cell.X
      , game_status := "playing"
      , difficulty := "medium"
      , winner := none
      , winning_line := none } false 0 ≠
      Except.error ("Invalid difficulty level: " ++ "expert") := by
  refine ⟨by decide, by decide, rfl, ?_⟩
  intro h
  rw [show TicTacToeAI.get_move "expert"
      { board := [[Cell.X, Cell.O, Cell.X],
                  [Cell.O, Cell.X, Cell.O],
                  [Cell.O, Cell.X, Cell.O]]
      , current_player := Cell.X
      , game_status := "playing"
      , difficulty := "medium"
      , winner := none
      , winning_line := none } false 0 =
      Except.error "No valid moves available" from rfl] at h
  injection h with h2
  exact absurd h2 (by decide)

/-- C9 (amended): `get_move` fails with the no-moves error exactly when the
board has no empty cell, and fails with the invalid-difficulty error
whenever empty cells remain and the (lowercased, as stored by the
constructor) difficulty is outside {easy, medium, hard}; the no-moves
check runs first, so an invalid difficulty on a full board reports
no-moves. -/
theorem C9_selector_errors (d : String) (g : Game) (br : Bool) (k : Nat) :
    (TicTacToeGame.get_empty_cells g.board = [] →
      TicTacToeAI.get_move d g br k = Except.error "No valid moves available") ∧
    (TicTacToeAI.get_move d g br k = Except.error "No valid moves available" →
      TicTacToeGame.get_empty_cells g.board = []) ∧
    (TicTacToeGame.get_empty_cells g.board ≠ [] →
      d ∉ (["easy", "medium", "hard"] : List String) →
      TicTacToeAI.get_move d g br k =
        Except.error ("Invalid difficulty level: " ++ d)) := by
  have hmsg : ("Invalid difficulty level: " ++ d) ≠ "No valid moves available" := by
    intro h
    have hlen := congrArg String.length h
    rw [String.length_append] at hlen
    have h1 : ("Invalid difficulty level: " : String).length = 26 := by decide
    have h2 : ("No valid moves available" : String).length = 24 := by decide
    omega
  unfold TicTacToeAI.get_move
  by_cases he : TicTacToeGame.get_empty_cells g.board = []
  · rw [if_pos he]
    exact ⟨fun _ => rfl, fun _ => he, fun hne _ => absurd he hne⟩
  · rw [if_neg he]
    refine ⟨fun h => absurd h he, ?_, ?_⟩
    · intro h
      by_cases h1 : d = "easy"
      · rw [if_pos h1] at h; cases h
      · rw [if_neg h1] at h
        by_cases h2 : d = "medium"
        · rw [if_pos h2] at h; cases h
        · rw [if_neg h2] at h
          by_cases h3 : d = "hard"
          · rw [if_pos h3] at h; cases h
          · rw [if_neg h3] at h
            injection h with h4
            exact absurd h4 hmsg
    · intro _ hd
      have h1 : d ≠ "easy" := fun h => hd (by rw [h]; decide)
      have h2 : d ≠ "medium" := fun h => hd (by rw [h]; simp)
      have h3 : d ≠ "hard" := fun h => hd (by rw [h]; simp)
      rw [if_neg h1, if_neg h2, if_neg h3]

/-- Witness for C9 (amended): nonempty board with an invalid difficulty. -/
theorem C9_witness :
    TicTacToeGame.get_empty_cells (TicTacToeGame.new "medium").board ≠ [] ∧
    ("expert" ∉ (["easy", "medium", "hard"] : List String)) ∧
    TicTacToeAI.get_move "expert" (TicTacToeGame.new "medium") false 0 =
      Except.error ("Invalid difficulty level: " ++ "expert") :=
  ⟨by decide, by decide,
   (C9_selector_errors "expert" (TicTacToeGame.new "medium") false 0).2.2
     (by decide) (by decide)⟩

/-- C5: the success postcondition of `make_move`: on a legal in-turn move
(from a state satisfying the data-model invariant `winning_line = None`
while in progress) the mark is written into exactly the target cell, the
status and `winning_line` are recomputed from the whole resulting board
(by the fixed 8-line scan), the turn flips exactly when the resulting
status is still `'playing'`, and nothing else changes.  The concrete
scenario of the claim — (0,0,X) then (1,1,O) from a fresh board — is the
second conjunct. -/
theorem C5_make_move_success :
    (∀ (g : Game) (row col : Int) (p : Cell),
      TicTacToeGame.is_valid_move g row col = true →
      p = g.current_player →
      g.winning_line = none →
      ∃ g', TicTacToeGame.make_move g row col p = (true, g') ∧
        g'.board = setCell g.board row.toNat col.toNat p ∧
        g'.difficulty = g.difficulty ∧
        (match winnerLine (setCell g.board row.toNat col.toNat p) with
         | some (t, m) =>
             g'.game_status = (if m = Cell.X then "won" else "lost") ∧
             g'.winner = some m ∧
             g'.winning_line = some (tripleToList t) ∧
             g'.current_player = g.current_player
         | none =>
             if TicTacToeGame.is_board_full
                 (setCell g.board row.toNat col.toNat p) then
               g'.game_status = "draw" ∧ g'.winner = g.winner ∧
               g'.winning_line = none ∧
               g'.current_player = g.current_player
             else
               g'.game_status = "playing" ∧ g'.winner = g.winner ∧
               g'.winning_line = none ∧
               g'.current_player = TicTacToeGame.flip_player p) ∧
        (g'.current_player ≠ g.current_player ↔ g'.game_status = "playing")) ∧
    ((TicTacToeGame.make_move (TicTacToeGame.new "medium") 0 0 Cell.X).1 = true ∧
     (TicTacToeGame.make_move
       (TicTacToeGame.make_move (TicTacToeGame.new "medium") 0 0 Cell.X).2
       1 1 Cell.O).1 = true ∧
     (TicTacToeGame.make_move
       (TicTacToeGame.make_move (TicTacToeGame.new "medium") 0 0 Cell.X).2
       1 1 Cell.O).2.current_player = Cell.X ∧
     (TicTacToeGame.make_move
       (TicTacToeGame.make_move (TicTacToeGame.new "medium") 0 0 Cell.X).2
       1 1 Cell.O).2.game_status = "playing" ∧
     getCell (TicTacToeGame.make_move
       (TicTacToeGame.make_move (TicTacToeGame.new "medium") 0 0 Cell.X).2
       1 1 Cell.O).2.board 0 0 = Cell.X ∧
     getCell (TicTacToeGame.make_move
       (TicTacToeGame.make_move (TicTacToeGame.new "medium") 0 0 Cell.X).2
       1 1 Cell.O).2.board 1 1 = Cell.O) := by
  constructor
  · intro g row col p hv hp hwl0
    have hstat := (TicTacToeGame.is_valid_move_iff.mp hv).2.2.2.2.2
    cases hwlb : winnerLine (setCell g.board row.toNat col.toNat p) with
    | some tm =>
      obtain ⟨t, m⟩ := tm
      refine ⟨_, TicTacToeGame.make_move_eq_of_winner hv hp hwlb, rfl, rfl, ?_, ?_⟩
      · exact ⟨rfl, rfl, rfl, rfl⟩
      · constructor
        · intro h; exact absurd rfl h
        · intro h
          exfalso
          revert h
          show ¬ (if m = Cell.X then "won" else "lost") = "playing"
          split_ifs <;> decide
    | none =>
      cases hfb : TicTacToeGame.is_board_full
          (setCell g.board row.toNat col.toNat p) with
      | true =>
        refine ⟨_, TicTacToeGame.make_move_eq_of_draw hv hp hwlb hfb, rfl, rfl, ?_, ?_⟩
        · exact ⟨rfl, rfl, hwl0, rfl⟩
        · constructor
          · intro h; exact absurd rfl h
          · intro h
            have h2 : ("draw" : String) = "playing" := h
            exact absurd h2 (by decide)
      | false =>
        refine ⟨_, TicTacToeGame.make_move_eq_of_continue hv hp hwlb hfb, rfl, rfl, ?_, ?_⟩
        · exact ⟨hstat, rfl, hwl0, rfl⟩
        · constructor
          · intro _; exact hstat
          · intro _
            show TicTacToeGame.flip_player p ≠ g.current_player
            rw [← hp]
            unfold TicTacToeGame.flip_player
            cases p <;> decide
  · exact ⟨by decide, by decide, by decide, by decide, by decide, by decide⟩

/-- Witness for C5 at the first move of the concrete scenario. -/
theorem C5_witness :
    TicTacToeGame.is_valid_move (TicTacToeGame.new "medium") 0 0 = true ∧
    Cell.X = (TicTacToeGame.new "medium").current_player ∧
    (TicTacToeGame.new "medium").winning_line = none ∧
    (∃ g', TicTacToeGame.make_move (TicTacToeGame.new "medium") 0 0 Cell.X =
      (true, g') ∧
      g'.board = setCell (TicTacToeGame.new "medium").board 0 0 Cell.X ∧
      g'.difficulty = (TicTacToeGame.new "medium").difficulty ∧
      (match winnerLine (setCell (TicTacToeGame.new "medium").board 0 0 Cell.X) with
       | some (t, m) =>
           g'.game_status = (if m = Cell.X then "won" else "lost") ∧
           g'.winner = some m ∧
           g'.winning_line = some (tripleToList t) ∧
           g'.current_player = (TicTacToeGame.new "medium").current_player
       | none =>
           if TicTacToeGame.is_board_full
               (setCell (TicTacToeGame.new "medium").board 0 0 Cell.X) then
             g'.game_status = "draw" ∧
             g'.winner = (TicTacToeGame.new "medium").winner ∧
             g'.winning_line = none ∧
             g'.current_player = (TicTacToeGame.new "medium").current_player
           else
             g'.game_status = "playing" ∧
             g'.winner = (TicTacToeGame.new "medium").winner ∧
             g'.winning_line = none ∧
             g'.current_player = TicTacToeGame.flip_player Cell.X) ∧
      (g'.current_player ≠ (TicTacToeGame.new "medium").current_player ↔
        g'.game_status = "playing")) :=
  ⟨by decide, rfl, rfl,
   C5_make_move_success.1 (TicTacToeGame.new "medium") 0 0 Cell.X
     (by decide) rfl rfl⟩

/-- C7: the medium-tier priority chain, each step short-circuiting on the
first match: (1) take an own win, (2) block the opponent's win, (3) take
the center, (4) take some empty corner, (5) take some empty cell; steps
(1) and (2) return the first qualifying cell in the row-major order of
`get_empty_cells` (last conjunct).  The oracle `k` ranges over all
outcomes of the `random.choice` calls. -/
theorem C7_medium_chain (g : Game) (k : Nat) :
    (∀ m, TicTacToeAI._find_winning_move g TicTacToeAI.ai_player = some m →
      TicTacToeAI._get_medium_move g (TicTacToeGame.get_empty_cells g.board) k = m) ∧
    (TicTacToeAI._find_winning_move g TicTacToeAI.ai_player = none →
      ∀ m, TicTacToeAI._find_winning_move g TicTacToeAI.human_player = some m →
        TicTacToeAI._get_medium_move g (TicTacToeGame.get_empty_cells g.board) k = m) ∧
    (TicTacToeAI._find_winning_move g TicTacToeAI.ai_player = none →
      TicTacToeAI._find_winning_move g TicTacToeAI.human_player = none →
      (1, 1) ∈ TicTacToeGame.get_empty_cells g.board →
      TicTacToeAI._get_medium_move g (TicTacToeGame.get_empty_cells g.board) k = (1, 1)) ∧
    (TicTacToeAI._find_winning_move g TicTacToeAI.ai_player = none →
      TicTacToeAI._find_winning_move g TicTacToeAI.human_player = none →
      (1, 1) ∉ TicTacToeGame.get_empty_cells g.board →
      ([(0, 0), (0, 2), (2, 0), (2, 2)] : List (Nat × Nat)).filter
        (fun pos => decide (pos ∈ TicTacToeGame.get_empty_cells g.board)) ≠ [] →
      TicTacToeAI._get_medium_move g (TicTacToeGame.get_empty_cells g.board) k ∈
        ([(0, 0), (0, 2), (2, 0), (2, 2)] : List (Nat × Nat)) ∧
      TicTacToeAI._get_medium_move g (TicTacToeGame.get_empty_cells g.board) k ∈
        TicTacToeGame.get_empty_cells g.board) ∧
    (TicTacToeAI._find_winning_move g TicTacToeAI.ai_player = none →
      TicTacToeAI._find_winning_move g TicTacToeAI.human_player = none →
      (1, 1) ∉ TicTacToeGame.get_empty_cells g.board →
      ([(0, 0), (0, 2), (2, 0), (2, 2)] : List (Nat × Nat)).filter
        (fun pos => decide (pos ∈ TicTacToeGame.get_empty_cells g.board)) = [] →
      TicTacToeGame.get_empty_cells g.board ≠ [] →
      TicTacToeAI._get_medium_move g (TicTacToeGame.get_empty_cells g.board) k ∈
        TicTacToeGame.get_empty_cells g.board) ∧
    (∀ (p : Cell) (m : Nat × Nat),
      TicTacToeAI._find_winning_move g p = some m →
      ∃ l1 l2, TicTacToeGame.get_empty_cells g.board = l1 ++ m :: l2 ∧
        winnerMark (setCell g.board m.1 m.2 p) = some p ∧
        ∀ q ∈ l1, winnerMark (setCell g.board q.1 q.2 p) ≠ some p) := by
  refine ⟨?_, ?_, ?_, ?_, ?_, ?_⟩
  · intro m hm
    unfold TicTacToeAI._get_medium_move
    rw [hm]
  · intro h1 m hm
    unfold TicTacToeAI._get_medium_move TicTacToeAI._find_blocking_move
    rw [h1, hm]
  · intro h1 h2 hc
    unfold TicTacToeAI._get_medium_move TicTacToeAI._find_blocking_move
    rw [h1, h2, if_pos hc]
  · intro h1 h2 hc hcorner
    unfold TicTacToeAI._get_medium_move TicTacToeAI._find_blocking_move
    rw [h1, h2, if_neg hc, if_pos hcorner]
    constructor
    · exact List.mem_of_mem_filter (choice_mem hcorner k)
    · have := List.of_mem_filter (choice_mem hcorner k)
      simpa using this
  · intro h1 h2 hc hcorner hne
    unfold TicTacToeAI._get_medium_move TicTacToeAI._find_blocking_move
    rw [h1, h2, if_neg hc]
    simp only [hcorner]
    rw [if_neg (fun h => h rfl)]
    exact choice_mem hne k
  · intro p m hm
    exact find_winning_aux_eq_some hm

/-- Witness for C7: on the fresh board the chain reaches step (3) and
takes the center. -/
theorem C7_witness :
    TicTacToeAI._find_winning_move (TicTacToeGame.new "medium")
      TicTacToeAI.ai_player = none ∧
    TicTacToeAI._find_winning_move (TicTacToeGame.new "medium")
      TicTacToeAI.human_player = none ∧
    (1, 1) ∈ TicTacToeGame.get_empty_cells (TicTacToeGame.new "medium").board ∧
    TicTacToeAI._get_medium_move (TicTacToeGame.new "medium")
      (TicTacToeGame.get_empty_cells (TicTacToeGame.new "medium").board) 0 = (1, 1) :=
  ⟨by decide, by decide, by decide,
   (C7_medium_chain (TicTacToeGame.new "medium") 0).2.2.1
     (by decide) (by decide) (by decide)⟩

/-- A concrete won state: X completes the top row. -/
def gWonC4 : Game :=
  playMoves (TicTacToeGame.new "medium")
    [(0, 0, Cell.X), (1, 0, Cell.O), (0, 1, Cell.X), (1, 1, Cell.O), (0, 2, Cell.X)]

/-- C4: on every reachable state, the status records a win for mark `m`
(`"won"` for X, `"lost"` for O) exactly when some scanned triple of the
board is entirely `m`; and when it does, `winning_line` holds the first
all-`m` triple in the fixed scan order of `check_winner` (rows
top-to-bottom, columns left-to-right, main diagonal, anti-diagonal —
the order of `WIN_LINES`). -/
theorem C4_win_detection (g : Game) (hg : Reachable g) (m : Cell)
    (hm : m ≠ Cell.empty) :
    (wonFor g m ↔ ∃ t ∈ WIN_LINES, isLineOf g.board t m) ∧
    (wonFor g m →
      ∃ t ∈ WIN_LINES, g.winning_line = some (tripleToList t) ∧
        WIN_LINES.find? (fun u => decide (isLineOf g.board u m)) = some t) := by
  obtain ⟨hsh, hwonIff, hlostIff, hplayFull, hplayLine, hline⟩ := reachable_inv hg
  constructor
  · cases m with
    | empty => exact absurd rfl hm
    | X =>
      constructor
      · intro hw
        rcases hw with ⟨_, hs⟩ | ⟨hXO, _⟩
        · exact hwonIff.mp hs
        · cases hXO
      · intro hex
        exact Or.inl ⟨rfl, hwonIff.mpr hex⟩
    | O =>
      constructor
      · intro hw
        rcases hw with ⟨hOX, _⟩ | ⟨_, hs⟩
        · cases hOX
        · exact hlostIff.mp hs
      · intro hex
        exact Or.inr ⟨rfl, hlostIff.mpr hex⟩
  · intro hw
    have hstat : g.game_status = "won" ∨ g.game_status = "lost" := by
      rcases hw with ⟨_, hs⟩ | ⟨_, hs⟩
      · exact Or.inl hs
      · exact Or.inr hs
    obtain ⟨t, m', hWL, hWline⟩ := hline hstat
    obtain ⟨htmem, hisline, hm'⟩ := winnerLine_eq_some hWL
    have hmm : m' = m := by
      cases m' with
      | empty => exact absurd rfl hm'
      | X =>
        cases m with
        | empty => exact absurd rfl hm
        | X => rfl
        | O =>
          have hsl : g.game_status = "lost" := by
            rcases hw with ⟨hc, _⟩ | ⟨_, hs⟩
            · cases hc
            · exact hs
          have hsw : g.game_status = "won" := hwonIff.mpr ⟨t, htmem, hisline⟩
          rw [hsl] at hsw
          exact absurd hsw (by decide)
      | O =>
        cases m with
        | empty => exact absurd rfl hm
        | X =>
          have hsw : g.game_status = "won" := by
            rcases hw with ⟨_, hs⟩ | ⟨hc, _⟩
            · exact hs
            · cases hc
          have hsl : g.game_status = "lost" := hlostIff.mpr ⟨t, htmem, hisline⟩
          rw [hsw] at hsl
          exact absurd hsl (by decide)
        | O => rfl
    rw [hmm] at hWL hisline
    refine ⟨t, htmem, hWline, ?_⟩
    obtain ⟨l1, l2, heq, hlw, hnone⟩ :=
      findFirstLine_eq_some (show findFirstLine g.board WIN_LINES = some (t, m) from hWL)
    rw [heq]
    apply find_first_append
    · intro u hu
      simp only [decide_eq_false_iff_not]
      exact (lineWinner_eq_none_iff.mp (hnone u hu)) m hm
    · simp only [decide_eq_true_eq]
      exact hisline

/-- Witness for C4: X wins along the top row; the status reads `"won"` and
`winning_line` is the top-row triple, the first all-X line in scan order. -/
theorem C4_witness :
    wonFor gWonC4 Cell.X ∧
    (wonFor gWonC4 Cell.X ↔ ∃ t ∈ WIN_LINES, isLineOf gWonC4.board t Cell.X) ∧
    (∃ t ∈ WIN_LINES, gWonC4.winning_line = some (tripleToList t) ∧
      WIN_LINES.find? (fun u => decide (isLineOf gWonC4.board u Cell.X)) = some t) := by
  have hreach : Reachable gWonC4 :=
    reachable_playMoves _ _ (Reachable.new "medium") (by decide)
  have h := C4_win_detection gWonC4 hreach Cell.X (by decide)
  have hwon : wonFor gWonC4 Cell.X := Or.inl ⟨rfl, by decide⟩
  exact ⟨hwon, h.1, h.2 hwon⟩

/-- A reachable one-move state used as the C1 witness input: X at (0, 0),
O to move. -/
def gC1w : Game := playMoves (TicTacToeGame.new "hard") [(0, 0, Cell.X)]

/-- Counterexample for C1.  State A (`cxGameA`): O has an immediate win at
(2, 2), yet `_get_hard_move` returns (1, 0), which does not win
immediately — minimax scores both 10 and keeps the first strict
improvement, with no depth preference.  State B (`cxGameB`): O has no
immediate win, the move (2, 2) leaves X without a win-in-one, yet
`_get_hard_move` returns (0, 2), after which X wins at (2, 2) — every
move loses by force, so the first empty cell is kept even though it is
unsafe while a safe move exists. -/
theorem C1_counterexample :
    (Reachable cxGameA ∧ cxGameA.current_player = Cell.O ∧
      cxGameA.game_status = "playing" ∧
      (2, 2) ∈ TicTacToeGame.get_empty_cells cxGameA.board ∧
      winnerMark (setCell cxGameA.board 2 2 Cell.O) = some Cell.O ∧
      TicTacToeAI._get_hard_move cxGameA = some (1, 0) ∧
      winnerMark (setCell cxGameA.board 1 0 Cell.O) ≠ some Cell.O) ∧
    (Reachable cxGameB ∧ cxGameB.current_player = Cell.O ∧
      cxGameB.game_status = "playing" ∧
      TicTacToeAI._find_winning_move cxGameB TicTacToeAI.ai_player = none ∧
      (2, 2) ∈ TicTacToeGame.get_empty_cells cxGameB.board ∧
      TicTacToeAI._find_winning_move
        { cxGameB with board := setCell cxGameB.board 2 2 Cell.O }
        TicTacToeAI.human_player = none ∧
      TicTacToeAI._get_hard_move cxGameB = some (0, 2) ∧
      TicTacToeAI._find_winning_move
        { cxGameB with board := setCell cxGameB.board 0 2 Cell.O }
        TicTacToeAI.human_player = some (2, 2)) := by
  constructor
  · refine ⟨?_, by decide, by decide, by decide, by decide, by decide, by decide⟩
    exact reachable_playMoves _ _ (Reachable.new "hard") (by decide)
  · refine ⟨?_, by decide, by decide, by decide, by decide, by decide, by decide,
      by decide⟩
    exact reachable_playMoves _ _ (Reachable.new "hard") (by decide)

/-- C1 (amended): on every reachable playing state with O to move, the
hard tier returns some empty cell; if an immediate O win exists the
position's minimax value is 10 and the chosen move's child value is 10
(a forced win is pursued, though not necessarily the immediate one); and
if no immediate O win exists and the position is not already lost by
force (value > -10), the chosen move leaves X without a win-in-one. -/
theorem C1_hard_tier_optimality (g : Game) (hg : Reachable g)
    (hcur : g.current_player = Cell.O) (hst : g.game_status = "playing") :
    ∃ mv, TicTacToeAI._get_hard_move g = some mv ∧
      mv ∈ TicTacToeGame.get_empty_cells g.board ∧
      ((∃ c ∈ TicTacToeGame.get_empty_cells g.board,
          winnerMark (setCell g.board c.1 c.2 Cell.O) = some Cell.O) →
        gameValue g.board true = 10 ∧
        gameValue (setCell g.board mv.1 mv.2 Cell.O) false = 10) ∧
      ((∀ c ∈ TicTacToeGame.get_empty_cells g.board,
          winnerMark (setCell g.board c.1 c.2 Cell.O) ≠ some Cell.O) →
        -10 < gameValue g.board true →
        TicTacToeAI._find_winning_move
          { g with board := setCell g.board mv.1 mv.2 Cell.O }
          TicTacToeAI.human_player = none) := by
  obtain ⟨hsh, hwonIff, hlostIff, hplayFull, hplayLine, _⟩ := reachable_inv hg
  have hfull : TicTacToeGame.is_board_full g.board = false := hplayFull hst
  have hw : winnerMark g.board = none := by
    rw [winnerMark_eq_none_iff]
    constructor
    · intro hX
      have hc := hwonIff.mpr hX
      rw [hst] at hc
      exact absurd hc (by decide)
    · intro hO
      have hc := hlostIff.mpr hO
      rw [hst] at hc
      exact absurd hc (by decide)
  obtain ⟨mv, hmv, hmem, hchild, hroot⟩ :=
    TicTacToeAI.hard_move_spec g.board hsh hw hfull
  have hchild' : TicTacToeAI.mmVal 9 (setCell g.board mv.1 mv.2 Cell.O) false =
      (TicTacToeAI._minimax 10 g.board true (-1000) 1000).1 := hchild
  have hroot' : (TicTacToeAI._minimax 10 g.board true (-1000) 1000).1 =
      TicTacToeAI.mmVal 10 g.board true := hroot
  refine ⟨mv, hmv, hmem, ?_, ?_⟩
  · rintro ⟨c, hc, hwin⟩
    have h10 : gameValue g.board true = 10 :=
      value_ten_of_win_in_one hsh hw hfull hc hwin
    have h10' : TicTacToeAI.mmVal 10 g.board true = 10 := h10
    refine ⟨h10, ?_⟩
    have hr1 : mv.1 < 3 := (TicTacToeAI.mem_empty_lt hmem).1
    have hc1 : mv.2 < 3 := (TicTacToeAI.mem_empty_lt hmem).2
    have hshc : Shaped (setCell g.board mv.1 mv.2 Cell.O) :=
      shaped_setCell hsh hr1 hc1 _
    have hlen : (TicTacToeGame.get_empty_cells
        (setCell g.board mv.1 mv.2 Cell.O)).length <
        (TicTacToeGame.get_empty_cells g.board).length :=
      get_empty_cells_length_setCell hsh (by decide) hmem
    have hle9 : (TicTacToeGame.get_empty_cells g.board).length ≤ 9 :=
      TicTacToeAI.empty_cells_le_9 g.board
    have hstab : TicTacToeAI.mmVal 10 (setCell g.board mv.1 mv.2 Cell.O) false =
        TicTacToeAI.mmVal 9 (setCell g.board mv.1 mv.2 Cell.O) false :=
      TicTacToeAI.mmVal_stable 10 9 _ false hshc (by omega) (by omega)
    show TicTacToeAI.mmVal 10 (setCell g.board mv.1 mv.2 Cell.O) false = 10
    rw [hstab, hchild', hroot']
    exact h10'
  · intro hnowin hgt
    have hgt' : -10 < TicTacToeAI.mmVal 10 g.board true := hgt
    show TicTacToeAI.find_winning_aux (setCell g.board mv.1 mv.2 Cell.O)
      TicTacToeAI.human_player
      (TicTacToeGame.get_empty_cells (setCell g.board mv.1 mv.2 Cell.O)) = none
    rw [find_winning_aux_eq_none_iff]
    intro q hq hxwin
    have hxwin' : winnerMark
        (setCell (setCell g.board mv.1 mv.2 Cell.O) q.1 q.2 Cell.X) =
        some Cell.X := hxwin
    have hneg : TicTacToeAI.mmVal 9 (setCell g.board mv.1 mv.2 Cell.O) false = -10 :=
      child_loses_of_allows_win hsh hw hmem hnowin hq hxwin'
    have hval : TicTacToeAI.mmVal 10 g.board true = -10 := by
      rw [← hroot', ← hchild', hneg]
    rw [hval] at hgt'
    exact absurd hgt' (by decide)

/-- Witness for C1's amended theorem at the reachable state with X at
(0, 0) and O to move. -/
theorem C1_witness :
    ∃ mv, TicTacToeAI._get_hard_move gC1w = some mv ∧
      mv ∈ TicTacToeGame.get_empty_cells gC1w.board ∧
      ((∃ c ∈ TicTacToeGame.get_empty_cells gC1w.board,
          winnerMark (setCell gC1w.board c.1 c.2 Cell.O) = some Cell.O) →
        gameValue gC1w.board true = 10 ∧
        gameValue (setCell gC1w.board mv.1 mv.2 Cell.O) false = 10) ∧
      ((∀ c ∈ TicTacToeGame.get_empty_cells gC1w.board,
          winnerMark (setCell gC1w.board c.1 c.2 Cell.O) ≠ some Cell.O) →
        -10 < gameValue gC1w.board true →
        TicTacToeAI._find_winning_move
          { gC1w with board := setCell gC1w.board mv.1 mv.2 Cell.O }
          TicTacToeAI.human_player = none) := by
  have hreach : Reachable gC1w :=
    reachable_playMoves _ _ (Reachable.new "hard") (by decide)
  exact C1_hard_tier_optimality gC1w hreach (by decide) (by decide)
